import Mathlib

set_option maxHeartbeats 1000000

/-! Shallow embedding of `goodok_mlu/utils.py`.

Python strings are modelled as Lean `String` (a list of characters), and the
string operations used by the source (`split`, `strip`, `join`, `splitlines`,
`startswith`, `in`, `re` patterns) are given explicit executable definitions
over `List Char`.  External effects (environment variables, subprocess
output, file reads, git lookups) are inputs collected in an `Env` record:
`none` for a call that fails (raises inside the tool invocation), `some`
lines for a call that succeeds with the given output lines.  A Python
exception escaping a function is modelled by the `PyRes` result type. -/

/-- Python exception classes that can escape the modelled code. -/
inductive PyErr where
  | subprocess : PyErr
  | index : PyErr
  | value : PyErr
  deriving DecidableEq, Repr

/-- Result of running a piece of Python code: a value, or an escaped exception. -/
inductive PyRes (α : Type) where
  | ok : α → PyRes α
  | exn : PyErr → PyRes α
  deriving DecidableEq, Repr

def PyRes.isOk {α : Type} : PyRes α → Bool
  | PyRes.ok _ => true
  | PyRes.exn _ => false

/-- Values stored in the `lines` ordered dict of `watermark`: Python `None`,
a `str`, or a `bytes` object (the undecoded output of `nvidia-smi`). -/
inductive PyVal where
  | pyNone : PyVal
  | str : String → PyVal
  | bytes : String → PyVal
  deriving DecidableEq, Repr

/-- Association-list lookup by key (first matching entry). -/
def lookup' {α : Type} (K : String) : List (String × α) → Option α
  | [] => none
  | e :: rest => if e.1 = K then some e.2 else lookup' K rest

/-- Python `d[k] = v` on a dict kept as an insertion-ordered association
list: overwrite in place when the key exists, append otherwise. -/
def odSet {α : Type} (ls : List (String × α)) (k : String) (v : α) : List (String × α) :=
  if ls.any (fun e => e.1 = k) then ls.map (fun e => if e.1 = k then (k, v) else e)
  else ls ++ [(k, v)]

/-- Python `sep.join(xs)`. -/
def pyJoin (sep : String) : List String → String
  | [] => ""
  | [x] => x
  | x :: y :: rest => x ++ sep ++ pyJoin sep (y :: rest)

/-- Python `s.strip()` on a character list. -/
def trimL (l : List Char) : List Char :=
  ((l.dropWhile Char.isWhitespace).reverse.dropWhile Char.isWhitespace).reverse

/-- Python `s.strip()`. -/
def pyTrim (s : String) : String := String.mk (trimL s.data)

/-- Is `p` a contiguous infix of `l`?  (Python `p in s` on strings.) -/
def isInfixL (p : List Char) : List Char → Bool
  | [] => p.isEmpty
  | c :: rest => p.isPrefixOf (c :: rest) || isInfixL p rest

/-- Python `sub in s` for strings. -/
def pyIn (sub s : String) : Bool := isInfixL sub.data s.data

/-- Python `s.startswith(p)`. -/
def pyStartsWith (s p : String) : Bool := p.data.isPrefixOf s.data

/-- Worker for `pySplit`: splits at each leftmost occurrence of the
(non-empty) separator `s0 :: srest`.  The fuel argument only bounds the
recursion; each step shortens the character list, so with fuel larger than
the list length the fuel-exhausted branch is unreachable. -/
def splitLAux (s0 : Char) (srest : List Char) : Nat → List Char → List Char → List (List Char)
  | _, [], acc => [acc.reverse]
  | 0, c :: cs, acc => [acc.reverse ++ c :: cs]
  | Nat.succ fuel, c :: cs, acc =>
    if (s0 :: srest).isPrefixOf (c :: cs) then
      acc.reverse :: splitLAux s0 srest fuel (List.drop srest.length cs) []
    else
      splitLAux s0 srest fuel cs (c :: acc)

/-- Python `s.split(sep)`: raises `ValueError` on an empty separator. -/
def pySplit (s sep : String) : PyRes (List String) :=
  match sep.data with
  | [] => PyRes.exn PyErr.value
  | s0 :: srest =>
    PyRes.ok ((splitLAux s0 srest (s.data.length + 1) s.data []).map (fun l => String.mk l))

/-- Splits a character list at each newline character. -/
def splitOnNl : List Char → List (List Char)
  | [] => [[]]
  | c :: cs =>
    if c = '\n' then [] :: splitOnNl cs
    else
      match splitOnNl cs with
      | [] => [[c]]
      | h :: t => (c :: h) :: t

/-- Python `s.splitlines()` restricted to newline terminators (the only
terminator occurring in the modelled data).  Empty string gives `[]`. -/
def pySplitlines (s : String) : List String :=
  if s = "" then [] else (splitOnNl s.data).map (fun l => String.mk l)

/-- Python `re.split(r"\s+", s)` on a character list: pieces between maximal
whitespace runs, with an empty boundary piece when the string starts or ends
with whitespace. -/
def wsSplit : List Char → List (List Char)
  | [] => [[]]
  | c :: cs =>
    let r := wsSplit cs
    if c.isWhitespace then
      match cs with
      | c2 :: _ => if c2.isWhitespace then r else [] :: r
      | [] => [] :: r
    else
      match r with
      | h :: t => (c :: h) :: t
      | [] => [[c]]

/-- Python `re.split(r"\s+", s)`. -/
def reSplitWs (s : String) : List String := (wsSplit s.data).map (fun l => String.mk l)

/-- The helper `find_in_lines` of `watermark` (utils.py lines 50-61): first
line of `pip_list` that both contains and starts with `package_name`; with
`remove_name` the name is split off the front and the rest stripped
(`package_name.join(line.split(package_name)[1:]).strip()`), otherwise the
line is stripped.  No matching line gives the empty string. -/
def find_in_lines (pip_list : List String) (package_name : String) (remove_name : Bool) : PyRes String :=
  match pip_list.find? (fun line => pyIn package_name line && pyStartsWith line package_name) with
  | none => PyRes.ok ""
  | some line =>
    if remove_name then
      match pySplit line package_name with
      | PyRes.exn e => PyRes.exn e
      | PyRes.ok parts => PyRes.ok (pyTrim (pyJoin package_name (parts.drop 1)))
    else PyRes.ok (pyTrim line)

/-- External state read by `watermark`: environment variables, the runtime
version string, the host name, the platform check, and the outcome of each
external invocation (`none` models the invocation raising). -/
structure Env where
  PS1 : Option String
  VIRTUAL_ENV : Option String
  sysVersion : String
  hostname : String
  platformIsLinux : Bool
  nvidiaSmi : Option (List String)
  nvcc : Option (List String)
  cudnnFile : Option (List String)
  pipList : Option (List String)
  gitHash : String → Option String

/-- Value stored for the `virtualenv` fact (utils.py lines 34-40):
`PS1` if set, else `VIRTUAL_ENV`, else Python `None`. -/
def virtualenvVal (env : Env) : PyVal :=
  match env.PS1 with
  | some s => PyVal.str s
  | none =>
    match env.VIRTUAL_ENV with
    | some s => PyVal.str s
    | none => PyVal.pyNone

/-- The `virtualenv` branch of `watermark`. -/
def stepVirtualenv (packages : List String) (env : Env) (lines : List (String × PyVal)) : List (String × PyVal) :=
  if "virtualenv" ∈ packages then odSet lines "virtualenv" (virtualenvVal env) else lines

/-- The `python` branch of `watermark`: first line of `sys.version`
(`IndexError` when there is none), reduced to its leading run of digits and
dots when that run is non-empty (the `([\d\.]+)` match). -/
def stepPython (packages : List String) (env : Env) (lines : List (String × PyVal)) : PyRes (List (String × PyVal)) :=
  if "python" ∈ packages then
    match pySplitlines env.sysVersion with
    | [] => PyRes.exn PyErr.index
    | r :: _ =>
      let tok := String.mk (r.data.takeWhile (fun c => c.isDigit || c = '.'))
      PyRes.ok (odSet lines "python" (PyVal.str (if tok = "" then r else tok)))
  else PyRes.ok lines

/-- The `hostname` branch of `watermark`. -/
def stepHostname (packages : List String) (env : Env) (lines : List (String × PyVal)) : List (String × PyVal) :=
  if "hostname" ∈ packages then odSet lines "hostname" (PyVal.str env.hostname) else lines

/-- Result of the guarded `nvcc` probe inside the `nvidia` branch
(utils.py lines 66-72): `check_output(["nvcc", "--version"])`, then
`find_in_lines(r, 'release', False)`, then `r.split('release')[1].strip()`;
`none` when any step of the `try` block fails. -/
def cudaProbeVal (env : Env) : Option String :=
  match env.nvcc with
  | none => none
  | some nls =>
    match find_in_lines nls "release" false with
    | PyRes.exn _ => none
    | PyRes.ok r =>
      match pySplit r "release" with
      | PyRes.exn _ => none
      | PyRes.ok parts =>
        match parts.get? 1 with
        | none => none
        | some piece => some (pyTrim piece)

/-- The `nvidia` branch of `watermark`: the unguarded `nvidia-smi` call
(its failure, or empty output, raises), then the guarded `nvcc` probe. -/
def stepNvidia (packages : List String) (env : Env) (lines : List (String × PyVal)) : PyRes (List (String × PyVal)) :=
  if "nvidia" ∈ packages then
    match env.nvidiaSmi with
    | none => PyRes.exn PyErr.subprocess
    | some out =>
      match out with
      | [] => PyRes.exn PyErr.index
      | first :: _ =>
        let l1 := odSet lines "nvidia driver" (PyVal.bytes first)
        PyRes.ok
          (match cudaProbeVal env with
           | none => l1
           | some v => odSet l1 "nvidia cuda" (PyVal.str v))
  else PyRes.ok lines

/-- Result of the guarded `try` block of the `cudnn` branch (utils.py lines
75-83): read the header lines, extract the three `#define` values, format
them as `MAJOR.MINOR.PATCH`; `none` when any step fails. -/
def cudnnProbeVal (env : Env) : Option String :=
  match env.cudnnFile with
  | none => none
  | some r =>
    match find_in_lines r "#define CUDNN_MAJOR" true,
          find_in_lines r "#define CUDNN_MINOR" true,
          find_in_lines r "#define CUDNN_PATCHLEVEL" true with
    | PyRes.ok v1, PyRes.ok v2, PyRes.ok v3 => some (v1 ++ "." ++ v2 ++ "." ++ v3)
    | _, _, _ => none

/-- The `cudnn` branch of `watermark` (linux only, whole block guarded). -/
def stepCudnn (packages : List String) (env : Env) (lines : List (String × PyVal)) : List (String × PyVal) :=
  if "cudnn" ∈ packages ∧ env.platformIsLinux = true then
    match cudnnProbeVal env with
    | none => lines
    | some s => odSet lines "cudnn" (PyVal.str s)
  else lines

/-- One of the unguarded pip-backed branches (`keras`, `tensorflow`,
`torch`): when `reqKey` is requested, store under `label` the result of
`find_in_lines(pip_list, searchName)`. -/
def stepPipPkg (packages : List String) (pip_list : List String) (reqKey searchName label : String)
    (lines : List (String × PyVal)) : PyRes (List (String × PyVal)) :=
  if reqKey ∈ packages then
    match find_in_lines pip_list searchName true with
    | PyRes.exn e => PyRes.exn e
    | PyRes.ok v => PyRes.ok (odSet lines label (PyVal.str v))
  else PyRes.ok lines

/-- One iteration of the git-hash loop (`sparseconvnet`,
`pytorch-lightning`): pip lookup, then a guarded attempt to read the git
head hash at the path found after the first whitespace run. -/
def gitStep (packages : List String) (pip_list : List String) (env : Env) (key : String)
    (lines : List (String × PyVal)) : PyRes (List (String × PyVal)) :=
  if key ∈ packages then
    match find_in_lines pip_list key true with
    | PyRes.exn e => PyRes.exn e
    | PyRes.ok line =>
      let a := reSplitWs line
      let line2 :=
        if 1 < a.length then
          match env.gitHash (pyJoin " " (a.drop 1)) with
          | some h => line ++ " " ++ h
          | none => line
        else line
      PyRes.ok (odSet lines key (PyVal.str line2))
  else PyRes.ok lines

/-- The `parsed` list of `watermark` (utils.py line 111). -/
def parsed : List String :=
  ["python", "virtualenv", "nvidia", "cudnn", "hostname", "sparseconvnet", "pytorch-lightning"]

/-- The final loop of `watermark` (utils.py lines 112-114): every requested
key not in `parsed` gets a pip-listing lookup. -/
def secondPass (pip_list : List String) : List String → List (String × PyVal) → PyRes (List (String × PyVal))
  | [], lines => PyRes.ok lines
  | key :: rest, lines =>
    if key ∈ parsed then secondPass pip_list rest lines
    else
      match find_in_lines pip_list key true with
      | PyRes.exn e => PyRes.exn e
      | PyRes.ok v => secondPass pip_list rest (odSet lines key (PyVal.str v))

/-- A single quote character, as used by the Python `repr` of `bytes`. -/
def sqChar : String := String.mk [Char.ofNat 39]

/-- Python `"{}".format(v)` for the stored values: `None` prints as `None`,
bytes print with the `b` prefix and quotes. -/
def formatVal : PyVal → String
  | PyVal.pyNone => "None"
  | PyVal.str s => s
  | PyVal.bytes s => "b" ++ sqChar ++ s ++ sqChar

/-- Python `"{: <15} {}".format(k + ":", v)`: the label with a colon, padded
with spaces to width 15, a space, then the value. -/
def pad15 (s : String) : String := s ++ String.mk (List.replicate (15 - s.length) ' ')

/-- One formatted report line. -/
def lineOf (e : String × PyVal) : String := pad15 (e.1 ++ ":") ++ " " ++ formatVal e.2

/-- The formatted report: lines joined with newlines (utils.py lines 116-118). -/
def formatReport (rep : List (String × PyVal)) : String := pyJoin "\n" (rep.map lineOf)

/-- Sequencing of Python statements that can raise: an exception aborts the
rest of the function body. -/
def PyRes.bind {α β : Type} : PyRes α → (α → PyRes β) → PyRes β
  | PyRes.ok a, f => f a
  | PyRes.exn e, _ => PyRes.exn e

/-- The `watermark` function (utils.py lines 32-122), with `return_string`
true: runs the fact branches in source order over the `lines` ordered dict,
then the pip-listing call, the pip-backed branches, the git loop, the final
pass over non-`parsed` identifiers, and the formatting; returns the ordered
fact report together with its formatted text, or the first escaped
exception. -/
def getPipList (env : Env) : PyRes (List String) :=
  match env.pipList with
  | none => PyRes.exn PyErr.subprocess
  | some pip_list => PyRes.ok pip_list

def watermark (packages : List String) (env : Env) : PyRes (List (String × PyVal) × String) :=
  PyRes.bind (stepPython packages env (stepVirtualenv packages env [])) (fun l2 =>
  PyRes.bind (stepNvidia packages env (stepHostname packages env l2)) (fun l4 =>
  PyRes.bind (getPipList env) (fun pip_list =>
    PyRes.bind (stepPipPkg packages pip_list "keras" "Keras" "keras" (stepCudnn packages env l4)) (fun l6 =>
    PyRes.bind (stepPipPkg packages pip_list "tensorflow" "tensorflow-gpu" "tensorflow-gpu" l6) (fun l7 =>
    PyRes.bind (stepPipPkg packages pip_list "torch" "torch" "torch" l7) (fun l8 =>
    PyRes.bind (gitStep packages pip_list env "sparseconvnet" l8) (fun l9 =>
    PyRes.bind (gitStep packages pip_list env "pytorch-lightning" l9) (fun l10 =>
    PyRes.bind (secondPass pip_list packages l10) (fun lfin =>
    PyRes.ok (lfin, formatReport lfin))))))))))

/-- The identifiers `watermark` treats specially anywhere in its body. -/
def builtins : List String :=
  ["python", "virtualenv", "nvidia", "cudnn", "hostname", "keras", "tensorflow", "torch",
   "sparseconvnet", "pytorch-lightning"]

/-- First-occurrence deduplication of `l`, dropping elements of `seen`. -/
def dedupNotIn (seen : List String) : List String → List String
  | [] => []
  | x :: xs => if x ∈ seen then dedupNotIn seen xs else x :: dedupNotIn (x :: seen) xs

/-- The labels inserted by the built-in branches of `watermark`, in the
order the code inserts them. -/
def internalKeys (packages : List String) (env : Env) : List String :=
  (if "virtualenv" ∈ packages then ["virtualenv"] else []) ++
  (if "python" ∈ packages then ["python"] else []) ++
  (if "hostname" ∈ packages then ["hostname"] else []) ++
  (if "nvidia" ∈ packages then ["nvidia driver"] else []) ++
  (if "nvidia" ∈ packages ∧ (cudaProbeVal env).isSome = true then ["nvidia cuda"] else []) ++
  (if "cudnn" ∈ packages ∧ env.platformIsLinux = true ∧ (env.cudnnFile).isSome = true then ["cudnn"] else []) ++
  (if "keras" ∈ packages then ["keras"] else []) ++
  (if "tensorflow" ∈ packages then ["tensorflow-gpu"] else []) ++
  (if "torch" ∈ packages then ["torch"] else []) ++
  (if "sparseconvnet" ∈ packages then ["sparseconvnet"] else []) ++
  (if "pytorch-lightning" ∈ packages then ["pytorch-lightning"] else [])

/-- The keys of an ordered dict. -/
def keysOf {α : Type} (ls : List (String × α)) : List String := ls.map Prod.fst

/-- Nested Python value for `dict_flatten` (utils.py lines 14-22): a
non-mapping leaf, or a mapping given as an insertion-ordered entry chain
(`nil` / `cons key value rest`). -/
inductive NVal where
  | leaf : Int → NVal
  | nil : NVal
  | cons : String → NVal → NVal → NVal
  deriving DecidableEq, Repr

/-- The `items` list built by `dict_flatten` before the final `dict(items)`:
entries of the mapping in order; a mapping value is recursed into with the
joined key (`parent_key + sep + k if parent_key else k`), a leaf value is
emitted. -/
def dict_flatten_items : NVal → String → String → List (String × Int)
  | NVal.leaf _, _, _ => []
  | NVal.nil, _, _ => []
  | NVal.cons k v rest, parent, sep =>
    let nk := if parent = "" then k else parent ++ sep ++ k
    (match v with
     | NVal.leaf x => [(nk, x)]
     | w => dict_flatten_items w nk sep) ++ dict_flatten_items rest parent sep

/-- Python `dict(items)`: first-occurrence position, last-occurrence value. -/
def pyDict (items : List (String × Int)) : List (String × Int) :=
  items.foldl (fun acc e => odSet acc e.1 e.2) []

/-- The function `dict_flatten(d, sep=sep)`. -/
def dict_flatten (d : NVal) (sep : String) : List (String × Int) :=
  pyDict (dict_flatten_items d "" sep)

/-- All leaves of a nested value with their key paths, in the traversal
order of `dict_flatten`. -/
def allLeaves : NVal → List (List String × Int)
  | NVal.leaf _ => []
  | NVal.nil => []
  | NVal.cons k v rest =>
    (match v with
     | NVal.leaf x => [([k], x)]
     | w => (allLeaves w).map (fun p => (k :: p.1, p.2))) ++ allLeaves rest

/-- Key produced by `dict_flatten` for a path, starting from `parent`: an
empty accumulated prefix contributes no separator. -/
def joinKey (parent sep : String) (path : List String) : String :=
  path.foldl (fun acc k => if acc = "" then k else acc ++ sep ++ k) parent

/-- Value of the last entry with key `K`, if any. -/
def lastVal : List (String × Int) → String → Option Int
  | [], _ => none
  | e :: rest, K =>
    match lastVal rest K with
    | some y => some y
    | none => if e.1 = K then some e.2 else none

/-- The leaves of `d` keyed by their joined flatten key. -/
def leafItems (d : NVal) (sep : String) : List (String × Int) :=
  (allLeaves d).map (fun p => (joinKey "" sep p.1, p.2))

/-- Dense 4-d array produced by `sparse_to_dense_sgnn`: the shape after
`expand_dims`, and the value at each (4-d) index. -/
structure Arr4 where
  shape : List Nat
  val : Nat → Nat → Nat → Nat → Int

/-- Sequential elementwise assignment `res[xs, ys, zs] = vals`: later
assignments to the same cell overwrite earlier ones. -/
def assignAt (base : Nat → Nat → Nat → Int) (cs : List ((Nat × Nat × Nat) × Int)) :
    Nat → Nat → Nat → Int :=
  cs.foldl (fun f cv => fun i j k => if (i, j, k) = cv.1 then cv.2 else f i j k) base

/-- The function `sparse_to_dense_sgnn(coords, sdf, dims, fillna)`
(utils.py lines 237-245): an array of shape `dims` filled with `fillna`,
the listed cells assigned the negated `sdf` values, then `expand_dims`. -/
def sparse_to_dense_sgnn (coords : List (Nat × Nat × Nat)) (sdf : List Int)
    (dims : Nat × Nat × Nat) (fillna : Int) : Arr4 :=
  let base : Nat → Nat → Nat → Int := fun _ _ _ => fillna
  let assigned := assignAt base ((coords.zip sdf).map (fun p => (p.1, -p.2)))
  { shape := [1, dims.1, dims.2.1, dims.2.2], val := fun _b i j k => assigned i j k }

/-- First three components of a 4-column coordinate row. -/
def fst3 (c : Int × Int × Int × Int) : Int × Int × Int := (c.1, c.2.1, c.2.2.1)

/-- numpy boolean-mask selection over the rows of `xs`. -/
def maskFilter {α : Type} : List Bool → List α → List α
  | true :: ms, x :: rest => x :: maskFilter ms rest
  | false :: ms, _ :: rest => maskFilter ms rest
  | _, _ => []

/-- numpy `.max()` of a list of integers (meaningful on non-empty input;
the Python call raises on an empty array). -/
def intListMax : List Int → Int
  | [] => 0
  | x :: rest => rest.foldl max x

/-- The function `split_coords_features(coords_features)` (utils.py lines
219-234): coordinates carry a batch index in column 3; for each
`i < max + 1` select the rows with batch index `i`, keeping the first three
coordinate columns and the matching feature rows. -/
def split_coords_features {F : Type} (coords : List (Int × Int × Int × Int)) (features : List F) :
    List (List (Int × Int × Int) × List F) :=
  let example_indices := coords.map (fun c => c.2.2.2)
  let N : Int := intListMax example_indices + 1
  (List.range N.toNat).map (fun (i : Nat) =>
    let indices := example_indices.map (fun e => decide (e = (i : Int)))
    ((maskFilter indices coords).map fst3, maskFilter indices features))


/-- A benign external state used for concrete runs: no virtualenv markers,
a plain version string, no GPU tooling, an empty package listing. -/
def envBase : Env :=
  { PS1 := none, VIRTUAL_ENV := none, sysVersion := "3.6.9", hostname := "host",
    platformIsLinux := false, nvidiaSmi := none, nvcc := none, cudnnFile := none,
    pipList := some [], gitHash := fun _ => none }

/-- `envBase` with a working GPU-driver query. -/
def envSmi : Env := { envBase with nvidiaSmi := some ["440.1"] }

/-- `envSmi` with an `nvcc` whose release line does not start with the word
`release` (the realistic `nvcc --version` output shape). -/
def envC3cex : Env :=
  { envSmi with nvcc := some ["Cuda compilation tools, release 9.1, V9.1.85"] }

/-- `envSmi` with an `nvcc` output line that does start with `release`. -/
def envC3wit : Env := { envSmi with nvcc := some ["release 9.1, V9"] }

/-- `envBase` with both virtualenv environment variables set. -/
def envC4wit : Env := { envBase with PS1 := some "(venv)", VIRTUAL_ENV := some "/v" }

/-- `envBase` with a one-line package listing. -/
def envC6wit : Env := { envBase with pipList := some ["numpy 1.0"] }

/-! Basic lemmas about the dict model. -/

lemma any_key_iff {α : Type} (ls : List (String × α)) (k : String) :
    (ls.any (fun e => e.1 = k)) = true ↔ k ∈ keysOf ls := by
  induction ls with
  | nil => simp [keysOf]
  | cons e rest ih =>
    simp only [List.any_cons, Bool.or_eq_true, decide_eq_true_eq, keysOf, List.map_cons,
      List.mem_cons] at ih ⊢
    constructor
    · rintro (h | h)
      · exact Or.inl h.symm
      · exact Or.inr (ih.1 h)
    · rintro (h | h)
      · exact Or.inl h.symm
      · exact Or.inr (ih.2 h)

lemma keysOf_overwrite {α : Type} (ls : List (String × α)) (k : String) (v : α) :
    keysOf (ls.map (fun e => if e.1 = k then (k, v) else e)) = keysOf ls := by
  induction ls with
  | nil => rfl
  | cons e rest ih =>
    simp only [keysOf, List.map_cons] at ih ⊢
    by_cases h : e.1 = k
    · simp only [if_pos h, ih]
      rw [h]
    · simp only [if_neg h, ih]

lemma keysOf_odSet_mem {α : Type} (ls : List (String × α)) (k : String) (v : α)
    (h : k ∈ keysOf ls) : keysOf (odSet ls k v) = keysOf ls := by
  unfold odSet
  rw [if_pos ((any_key_iff ls k).2 h)]
  exact keysOf_overwrite ls k v

lemma keysOf_odSet_fresh {α : Type} (ls : List (String × α)) (k : String) (v : α)
    (h : k ∉ keysOf ls) : keysOf (odSet ls k v) = keysOf ls ++ [k] := by
  unfold odSet
  rw [if_neg (fun hc => h ((any_key_iff ls k).1 hc))]
  simp [keysOf]

lemma lookup'_append {α : Type} (K : String) (l1 l2 : List (String × α)) :
    lookup' K (l1 ++ l2) =
      match lookup' K l1 with
      | some v => some v
      | none => lookup' K l2 := by
  induction l1 with
  | nil => simp [lookup']
  | cons e rest ih =>
    by_cases h : e.1 = K
    · simp [lookup', h]
    · simp only [List.cons_append, lookup', if_neg h]
      exact ih

lemma lookup'_eq_none {α : Type} (K : String) (ls : List (String × α))
    (h : K ∉ keysOf ls) : lookup' K ls = none := by
  induction ls with
  | nil => rfl
  | cons e rest ih =>
    simp only [keysOf, List.map_cons, List.mem_cons] at h
    push_neg at h
    simp only [lookup', if_neg (fun hc : e.1 = K => h.1 hc.symm)]
    exact ih (by simpa [keysOf] using h.2)

lemma lookup'_overwrite_self {α : Type} (ls : List (String × α)) (k : String) (v : α)
    (h : k ∈ keysOf ls) :
    lookup' k (ls.map (fun e => if e.1 = k then (k, v) else e)) = some v := by
  induction ls with
  | nil => simp [keysOf] at h
  | cons e rest ih =>
    by_cases he : e.1 = k
    · simp [lookup', he]
    · simp only [keysOf, List.map_cons, List.mem_cons] at h
      rcases h with h | h
      · exact absurd h.symm he
      · simp only [List.map_cons, if_neg he, lookup', if_neg (fun hc : e.1 = k => he hc)]
        exact ih (by simpa [keysOf] using h)

lemma lookup'_overwrite_ne {α : Type} (ls : List (String × α)) (k K : String) (v : α)
    (h : K ≠ k) :
    lookup' K (ls.map (fun e => if e.1 = k then (k, v) else e)) = lookup' K ls := by
  induction ls with
  | nil => rfl
  | cons e rest ih =>
    by_cases he : e.1 = k
    · simp only [List.map_cons, if_pos he, lookup']
      rw [if_neg (fun hc : k = K => h hc.symm), if_neg (fun hc : e.1 = K => h (hc ▸ he))]
      exact ih
    · simp only [List.map_cons, if_neg he, lookup']
      by_cases hK : e.1 = K
      · simp [hK]
      · simp only [if_neg hK]
        exact ih

lemma lookup'_odSet_self {α : Type} (ls : List (String × α)) (k : String) (v : α) :
    lookup' k (odSet ls k v) = some v := by
  unfold odSet
  by_cases h : (ls.any (fun e => e.1 = k)) = true
  · rw [if_pos h]
    exact lookup'_overwrite_self ls k v ((any_key_iff ls k).1 h)
  · rw [if_neg h, lookup'_append]
    rw [lookup'_eq_none k ls (fun hm => h ((any_key_iff ls k).2 hm))]
    simp [lookup']

lemma lookup'_odSet_ne {α : Type} (ls : List (String × α)) (k K : String) (v : α)
    (h : K ≠ k) : lookup' K (odSet ls k v) = lookup' K ls := by
  unfold odSet
  by_cases hm : (ls.any (fun e => e.1 = k)) = true
  · rw [if_pos hm]
    exact lookup'_overwrite_ne ls k K v h
  · rw [if_neg hm, lookup'_append]
    cases hl : lookup' K ls with
    | some v' => rfl
    | none =>
      simp only [lookup', if_neg (fun hc : k = K => h hc.symm)]

lemma splitOnNl_ne_nil (l : List Char) : splitOnNl l ≠ [] := by
  cases l with
  | nil => simp [splitOnNl]
  | cons c cs =>
    unfold splitOnNl
    by_cases h : c = '\n'
    · simp [h]
    · simp only [if_neg h]
      cases splitOnNl cs <;> simp

lemma string_ne_empty_data {s : String} (h : s ≠ "") : s.data ≠ [] :=
  fun hd => h (String.ext hd)

lemma find_in_lines_ok (pip_list : List String) (package_name : String)
    (h : package_name ≠ "") : ∃ v, find_in_lines pip_list package_name true = PyRes.ok v := by
  unfold find_in_lines
  cases pip_list.find? (fun line => pyIn package_name line && pyStartsWith line package_name) with
  | none => exact ⟨"", rfl⟩
  | some line =>
    simp only [if_true]
    unfold pySplit
    cases hd : package_name.data with
    | nil => exact absurd hd (string_ne_empty_data h)
    | cons s0 srest => exact ⟨_, rfl⟩

lemma not_mem_iteSingleton {c : Prop} [Decidable c] {x y : String} (h : x ≠ y) :
    x ∉ (if c then [y] else []) := by
  split
  · simp [h]
  · simp

lemma mem_iteSingleton {c : Prop} [Decidable c] {x y : String}
    (h : x ∈ (if c then [y] else [])) : x = y ∧ c := by
  by_cases hc : c
  · rw [if_pos hc] at h
    exact ⟨List.mem_singleton.1 h, hc⟩
  · rw [if_neg hc] at h
    exact absurd h (List.not_mem_nil x)

/-! Lemmas about `dedupNotIn` and the second pass of `watermark`. -/

lemma dedupNotIn_congr (l : List String) : ∀ s1 s2 : List String,
    (∀ x, x ∈ s1 ↔ x ∈ s2) → dedupNotIn s1 l = dedupNotIn s2 l := by
  induction l with
  | nil => intro s1 s2 _; rfl
  | cons x xs ih =>
    intro s1 s2 h
    unfold dedupNotIn
    by_cases hx : x ∈ s1
    · rw [if_pos hx, if_pos ((h x).1 hx)]
      exact ih s1 s2 h
    · rw [if_neg hx, if_neg (fun hc => hx ((h x).2 hc))]
      rw [ih (x :: s1) (x :: s2) (by intro y; simp [h y])]

lemma dedupNotIn_mem_head (l : List String) (s : List String) (x : String) (h : x ∈ s) :
    dedupNotIn s (x :: l) = dedupNotIn s l := by
  conv_lhs => rw [dedupNotIn]
  rw [if_pos h]

lemma dedupNotIn_not_mem (xs : List String) : ∀ s x, x ∉ s →
    dedupNotIn s (x :: xs) = x :: dedupNotIn (x :: s) xs := by
  intro s x h
  conv_lhs => rw [dedupNotIn]
  rw [if_neg h]

lemma secondPass_ok_keys (pip_list : List String) : ∀ (pk : List String) (acc : List (String × PyVal)),
    (∀ p ∈ pk, ¬ p ∈ parsed → p ≠ "") →
    ∃ res, secondPass pip_list pk acc = PyRes.ok res ∧
      keysOf res = keysOf acc ++ dedupNotIn (keysOf acc) (pk.filter (fun p => !decide (p ∈ parsed))) := by
  intro pk
  induction pk with
  | nil =>
    intro acc _
    exact ⟨acc, rfl, by simp [secondPass, dedupNotIn]⟩
  | cons k rest ih =>
    intro acc hne
    by_cases hp : k ∈ parsed
    · have hrec := ih acc (fun p hp' hnp => hne p (List.mem_cons_of_mem k hp') hnp)
      rcases hrec with ⟨res, hres, hkeys⟩
      refine ⟨res, ?_, ?_⟩
      · unfold secondPass
        rw [if_pos hp]
        exact hres
      · rw [hkeys]
        congr 1
        rw [List.filter_cons_of_neg (by simp [hp])]
    · have hk : k ≠ "" := hne k (List.mem_cons_self k rest) hp
      rcases find_in_lines_ok pip_list k hk with ⟨v, hv⟩
      have hrec := ih (odSet acc k (PyVal.str v)) (fun p hp' hnp => hne p (List.mem_cons_of_mem k hp') hnp)
      rcases hrec with ⟨res, hres, hkeys⟩
      refine ⟨res, ?_, ?_⟩
      · unfold secondPass
        rw [if_neg hp, hv]
        exact hres
      · rw [hkeys, List.filter_cons_of_pos (by simp [hp])]
        by_cases hm : k ∈ keysOf acc
        · rw [keysOf_odSet_mem acc k _ hm, dedupNotIn_mem_head _ _ _ hm]
        · rw [keysOf_odSet_fresh acc k _ hm, dedupNotIn_not_mem _ _ _ hm]
          rw [List.append_assoc]
          congr 1
          simp only [List.singleton_append]
          congr 1
          refine dedupNotIn_congr _ _ _ (fun x => ?_)
          simp [List.mem_append, or_comm]

lemma secondPass_lookup_notmem (pip_list : List String) : ∀ (pk : List String)
    (acc res : List (String × PyVal)) (K : String), K ∉ pk →
    secondPass pip_list pk acc = PyRes.ok res → lookup' K res = lookup' K acc := by
  intro pk
  induction pk with
  | nil =>
    intro acc res K _ h
    cases h
    rfl
  | cons k rest ih =>
    intro acc res K hK h
    have hKk : K ≠ k := fun hc => hK (hc ▸ List.mem_cons_self k rest)
    have hKrest : K ∉ rest := fun hc => hK (List.mem_cons_of_mem k hc)
    unfold secondPass at h
    by_cases hp : k ∈ parsed
    · rw [if_pos hp] at h
      exact ih acc res K hKrest h
    · rw [if_neg hp] at h
      cases hv : find_in_lines pip_list k true with
      | exn e => rw [hv] at h; cases h
      | ok v =>
        rw [hv] at h
        rw [ih _ res K hKrest h]
        exact lookup'_odSet_ne acc k K _ hKk

lemma secondPass_lookup_parsed (pip_list : List String) : ∀ (pk : List String)
    (acc res : List (String × PyVal)) (K : String), K ∈ parsed →
    secondPass pip_list pk acc = PyRes.ok res → lookup' K res = lookup' K acc := by
  intro pk
  induction pk with
  | nil =>
    intro acc res K _ h
    cases h
    rfl
  | cons k rest ih =>
    intro acc res K hK h
    unfold secondPass at h
    by_cases hp : k ∈ parsed
    · rw [if_pos hp] at h
      exact ih acc res K hK h
    · rw [if_neg hp] at h
      cases hv : find_in_lines pip_list k true with
      | exn e => rw [hv] at h; cases h
      | ok v =>
        rw [hv] at h
        rw [ih _ res K hK h]
        exact lookup'_odSet_ne acc k K _ (fun hc => hp (hc ▸ hK))

lemma secondPass_lookup_mem (pip_list : List String) : ∀ (pk : List String)
    (acc res : List (String × PyVal)) (pkg : String), pkg ∈ pk → ¬ pkg ∈ parsed →
    secondPass pip_list pk acc = PyRes.ok res →
    ∃ v, find_in_lines pip_list pkg true = PyRes.ok v ∧ lookup' pkg res = some (PyVal.str v) := by
  intro pk
  induction pk with
  | nil =>
    intro acc res pkg hm
    exact absurd hm (List.not_mem_nil pkg)
  | cons k rest ih =>
    intro acc res pkg hm hnp h
    unfold secondPass at h
    by_cases hp : k ∈ parsed
    · rw [if_pos hp] at h
      have hpk : pkg ∈ rest := by
        rcases List.mem_cons.1 hm with hc | hc
        · exact absurd (hc ▸ hp) hnp
        · exact hc
      exact ih acc res pkg hpk hnp h
    · rw [if_neg hp] at h
      cases hv : find_in_lines pip_list k true with
      | exn e => rw [hv] at h; cases h
      | ok v =>
        rw [hv] at h
        by_cases hpk : pkg ∈ rest
        · exact ih _ res pkg hpk hnp h
        · have hpkk : pkg = k := by
            rcases List.mem_cons.1 hm with hc | hc
            · exact hc
            · exact absurd hc hpk
          subst hpkk
          refine ⟨v, hv, ?_⟩
          rw [secondPass_lookup_notmem pip_list rest _ res pkg hpk h]
          exact lookup'_odSet_self acc pkg _

/-! Per-phase lemmas for `watermark`. -/

lemma keysOf_stepVirtualenv (p : List String) (env : Env) (lines : List (String × PyVal))
    (h : "virtualenv" ∉ keysOf lines) :
    keysOf (stepVirtualenv p env lines) =
      keysOf lines ++ (if "virtualenv" ∈ p then ["virtualenv"] else []) := by
  unfold stepVirtualenv
  by_cases hm : "virtualenv" ∈ p
  · rw [if_pos hm, if_pos hm, keysOf_odSet_fresh _ _ _ h]
  · rw [if_neg hm, if_neg hm, List.append_nil]

lemma lookup'_stepVirtualenv_ne (p : List String) (env : Env) (lines : List (String × PyVal))
    (K : String) (h : K ≠ "virtualenv") :
    lookup' K (stepVirtualenv p env lines) = lookup' K lines := by
  unfold stepVirtualenv
  by_cases hm : "virtualenv" ∈ p
  · rw [if_pos hm]
    exact lookup'_odSet_ne _ _ _ _ h
  · rw [if_neg hm]

lemma stepPython_ok (p : List String) (env : Env) (lines : List (String × PyVal))
    (h3 : "python" ∈ p → env.sysVersion ≠ "") (h : "python" ∉ keysOf lines) :
    ∃ l', stepPython p env lines = PyRes.ok l' ∧
      keysOf l' = keysOf lines ++ (if "python" ∈ p then ["python"] else []) := by
  unfold stepPython
  by_cases hm : "python" ∈ p
  · rw [if_pos hm, if_pos hm]
    have hnn : pySplitlines env.sysVersion ≠ [] := by
      unfold pySplitlines
      rw [if_neg (h3 hm)]
      simp [splitOnNl_ne_nil]
    cases hls : pySplitlines env.sysVersion with
    | nil => exact absurd hls hnn
    | cons r rest => exact ⟨_, rfl, keysOf_odSet_fresh _ _ _ h⟩
  · rw [if_neg hm, if_neg hm]
    exact ⟨lines, rfl, by simp⟩

lemma lookup'_stepPython_ne (p : List String) (env : Env) (lines l' : List (String × PyVal))
    (K : String) (h : K ≠ "python") (hok : stepPython p env lines = PyRes.ok l') :
    lookup' K l' = lookup' K lines := by
  unfold stepPython at hok
  by_cases hm : "python" ∈ p
  · rw [if_pos hm] at hok
    cases hls : pySplitlines env.sysVersion with
    | nil => rw [hls] at hok; cases hok
    | cons r rest =>
      rw [hls] at hok
      cases hok
      exact lookup'_odSet_ne _ _ _ _ h
  · rw [if_neg hm] at hok
    cases hok
    rfl

lemma keysOf_stepHostname (p : List String) (env : Env) (lines : List (String × PyVal))
    (h : "hostname" ∉ keysOf lines) :
    keysOf (stepHostname p env lines) =
      keysOf lines ++ (if "hostname" ∈ p then ["hostname"] else []) := by
  unfold stepHostname
  by_cases hm : "hostname" ∈ p
  · rw [if_pos hm, if_pos hm, keysOf_odSet_fresh _ _ _ h]
  · rw [if_neg hm, if_neg hm, List.append_nil]

lemma lookup'_stepHostname_ne (p : List String) (env : Env) (lines : List (String × PyVal))
    (K : String) (h : K ≠ "hostname") :
    lookup' K (stepHostname p env lines) = lookup' K lines := by
  unfold stepHostname
  by_cases hm : "hostname" ∈ p
  · rw [if_pos hm]
    exact lookup'_odSet_ne _ _ _ _ h
  · rw [if_neg hm]

lemma stepNvidia_ok (p : List String) (env : Env) (lines : List (String × PyVal))
    (h2 : "nvidia" ∈ p → ∃ out, env.nvidiaSmi = some out ∧ out ≠ [])
    (hd : "nvidia driver" ∉ keysOf lines) (hc : "nvidia cuda" ∉ keysOf lines) :
    ∃ l', stepNvidia p env lines = PyRes.ok l' ∧
      keysOf l' = (keysOf lines ++ (if "nvidia" ∈ p then ["nvidia driver"] else [])) ++
        (if "nvidia" ∈ p ∧ (cudaProbeVal env).isSome = true then ["nvidia cuda"] else []) := by
  unfold stepNvidia
  by_cases hm : "nvidia" ∈ p
  · rw [if_pos hm]
    rcases h2 hm with ⟨out, hout, hne⟩
    rw [hout]
    cases out with
    | nil => exact absurd rfl hne
    | cons first rest =>
      cases hpv : cudaProbeVal env with
      | none =>
        refine ⟨_, rfl, ?_⟩
        rw [keysOf_odSet_fresh _ _ _ hd, if_pos hm, if_neg (by simp [hpv])]
        simp
      | some v =>
        refine ⟨_, rfl, ?_⟩
        have hc1 : "nvidia cuda" ∉ keysOf (odSet lines "nvidia driver" (PyVal.bytes first)) := by
          rw [keysOf_odSet_fresh _ _ _ hd]
          intro hx
          rcases List.mem_append.1 hx with hx | hx
          · exact hc hx
          · rw [List.mem_singleton] at hx
            exact absurd hx (by decide)
        rw [keysOf_odSet_fresh _ _ _ hc1, keysOf_odSet_fresh _ _ _ hd]
        rw [if_pos hm, if_pos ⟨hm, by simp [hpv]⟩]
  · rw [if_neg hm]
    refine ⟨lines, rfl, ?_⟩
    rw [if_neg hm, if_neg (fun hx => hm hx.1)]
    simp

lemma stepNvidia_inv (p : List String) (env : Env) (lines l' : List (String × PyVal))
    (hm : "nvidia" ∈ p) (hok : stepNvidia p env lines = PyRes.ok l') :
    ∃ first rest, env.nvidiaSmi = some (first :: rest) ∧
      lookup' "nvidia driver" l' = some (PyVal.bytes first) ∧
      lookup' "nvidia cuda" l' =
        (match cudaProbeVal env with
         | some v => some (PyVal.str v)
         | none => lookup' "nvidia cuda" lines) := by
  unfold stepNvidia at hok
  rw [if_pos hm] at hok
  cases hsmi : env.nvidiaSmi with
  | none => rw [hsmi] at hok; cases hok
  | some out =>
    rw [hsmi] at hok
    cases out with
    | nil => cases hok
    | cons first rest =>
      cases hpv : cudaProbeVal env with
      | none =>
        rw [hpv] at hok
        cases hok
        refine ⟨first, rest, rfl, lookup'_odSet_self _ _ _, ?_⟩
        rw [lookup'_odSet_ne _ _ _ _ (by decide)]
      | some v =>
        rw [hpv] at hok
        cases hok
        refine ⟨first, rest, rfl, ?_, ?_⟩
        · rw [lookup'_odSet_ne _ _ _ _ (by decide)]
          exact lookup'_odSet_self _ _ _
        · exact lookup'_odSet_self _ _ _

lemma lookup'_stepNvidia_ne (p : List String) (env : Env) (lines l' : List (String × PyVal))
    (K : String) (h1 : K ≠ "nvidia driver") (h2 : K ≠ "nvidia cuda")
    (hok : stepNvidia p env lines = PyRes.ok l') :
    lookup' K l' = lookup' K lines := by
  unfold stepNvidia at hok
  by_cases hm : "nvidia" ∈ p
  · rw [if_pos hm] at hok
    cases hsmi : env.nvidiaSmi with
    | none => rw [hsmi] at hok; cases hok
    | some out =>
      rw [hsmi] at hok
      cases out with
      | nil => cases hok
      | cons first rest =>
        cases hpv : cudaProbeVal env with
        | none =>
          rw [hpv] at hok
          cases hok
          exact lookup'_odSet_ne _ _ _ _ h1
        | some v =>
          rw [hpv] at hok
          cases hok
          rw [lookup'_odSet_ne _ _ _ _ h2]
          exact lookup'_odSet_ne _ _ _ _ h1
  · rw [if_neg hm] at hok
    cases hok
    rfl

lemma cudnnProbe_isSome (env : Env) :
    (cudnnProbeVal env).isSome = (env.cudnnFile).isSome := by
  unfold cudnnProbeVal
  cases hcf : env.cudnnFile with
  | none => rfl
  | some r =>
    obtain ⟨v1, h1⟩ := find_in_lines_ok r "#define CUDNN_MAJOR" (by decide)
    obtain ⟨v2, h2⟩ := find_in_lines_ok r "#define CUDNN_MINOR" (by decide)
    obtain ⟨v3, h3⟩ := find_in_lines_ok r "#define CUDNN_PATCHLEVEL" (by decide)
    show (match find_in_lines r "#define CUDNN_MAJOR" true,
          find_in_lines r "#define CUDNN_MINOR" true,
          find_in_lines r "#define CUDNN_PATCHLEVEL" true with
      | PyRes.ok v1, PyRes.ok v2, PyRes.ok v3 => some (v1 ++ "." ++ v2 ++ "." ++ v3)
      | _, _, _ => none).isSome = (some r).isSome
    rw [h1, h2, h3]
    rfl

lemma keysOf_stepCudnn (p : List String) (env : Env) (lines : List (String × PyVal))
    (h : "cudnn" ∉ keysOf lines) :
    keysOf (stepCudnn p env lines) = keysOf lines ++
      (if "cudnn" ∈ p ∧ env.platformIsLinux = true ∧ (env.cudnnFile).isSome = true
       then ["cudnn"] else []) := by
  unfold stepCudnn
  by_cases hm : "cudnn" ∈ p ∧ env.platformIsLinux = true
  · rw [if_pos hm]
    cases hpv : cudnnProbeVal env with
    | none =>
      rw [if_neg (fun hx => by rw [← cudnnProbe_isSome, hpv] at hx; exact absurd hx.2.2 (by simp))]
      simp
    | some s =>
      rw [keysOf_odSet_fresh _ _ _ h,
        if_pos ⟨hm.1, hm.2, by rw [← cudnnProbe_isSome, hpv]; rfl⟩]
  · rw [if_neg hm, if_neg (fun hx => hm ⟨hx.1, hx.2.1⟩)]
    simp

lemma lookup'_stepCudnn_ne (p : List String) (env : Env) (lines : List (String × PyVal))
    (K : String) (h : K ≠ "cudnn") :
    lookup' K (stepCudnn p env lines) = lookup' K lines := by
  unfold stepCudnn
  by_cases hm : "cudnn" ∈ p ∧ env.platformIsLinux = true
  · rw [if_pos hm]
    cases cudnnProbeVal env with
    | none => rfl
    | some s => exact lookup'_odSet_ne _ _ _ _ h
  · rw [if_neg hm]

lemma stepPipPkg_ok (p pip : List String) (reqKey searchName label : String)
    (lines : List (String × PyVal)) (hs : searchName ≠ "") (h : label ∉ keysOf lines) :
    ∃ l', stepPipPkg p pip reqKey searchName label lines = PyRes.ok l' ∧
      keysOf l' = keysOf lines ++ (if reqKey ∈ p then [label] else []) := by
  unfold stepPipPkg
  by_cases hm : reqKey ∈ p
  · rw [if_pos hm, if_pos hm]
    obtain ⟨v, hv⟩ := find_in_lines_ok pip searchName hs
    rw [hv]
    exact ⟨_, rfl, keysOf_odSet_fresh _ _ _ h⟩
  · rw [if_neg hm, if_neg hm]
    exact ⟨lines, rfl, by simp⟩

lemma lookup'_stepPipPkg_ne (p pip : List String) (reqKey searchName label : String)
    (lines l' : List (String × PyVal)) (K : String) (h : K ≠ label)
    (hok : stepPipPkg p pip reqKey searchName label lines = PyRes.ok l') :
    lookup' K l' = lookup' K lines := by
  unfold stepPipPkg at hok
  by_cases hm : reqKey ∈ p
  · rw [if_pos hm] at hok
    cases hv : find_in_lines pip searchName true with
    | exn e => rw [hv] at hok; cases hok
    | ok v =>
      rw [hv] at hok
      cases hok
      exact lookup'_odSet_ne _ _ _ _ h
  · rw [if_neg hm] at hok
    cases hok
    rfl

lemma gitStep_ok (p pip : List String) (env : Env) (key : String)
    (lines : List (String × PyVal)) (hk : key ≠ "") (h : key ∉ keysOf lines) :
    ∃ l', gitStep p pip env key lines = PyRes.ok l' ∧
      keysOf l' = keysOf lines ++ (if key ∈ p then [key] else []) := by
  unfold gitStep
  by_cases hm : key ∈ p
  · rw [if_pos hm, if_pos hm]
    obtain ⟨v, hv⟩ := find_in_lines_ok pip key hk
    rw [hv]
    exact ⟨_, rfl, keysOf_odSet_fresh _ _ _ h⟩
  · rw [if_neg hm, if_neg hm]
    exact ⟨lines, rfl, by simp⟩

lemma lookup'_gitStep_ne (p pip : List String) (env : Env) (key : String)
    (lines l' : List (String × PyVal)) (K : String) (h : K ≠ key)
    (hok : gitStep p pip env key lines = PyRes.ok l') :
    lookup' K l' = lookup' K lines := by
  unfold gitStep at hok
  by_cases hm : key ∈ p
  · rw [if_pos hm] at hok
    cases hv : find_in_lines pip key true with
    | exn e => rw [hv] at hok; cases hok
    | ok v =>
      rw [hv] at hok
      cases hok
      exact lookup'_odSet_ne _ _ _ _ h
  · rw [if_neg hm] at hok
    cases hok
    rfl

lemma not_mem_append' {α : Type} {x : α} {A B : List α} (ha : x ∉ A) (hb : x ∉ B) :
    x ∉ A ++ B := fun hx => (List.mem_append.1 hx).elim ha hb

lemma ite_singleton_sub {c : Prop} [Decidable c] (y : String) :
    (if c then [y] else []) ⊆ [y] := by
  split
  · exact List.Subset.refl _
  · simp

lemma watermark_ok_keys (packages : List String) (env : Env)
    (H1 : (env.pipList).isSome = true)
    (H2 : "nvidia" ∈ packages → ∃ out, env.nvidiaSmi = some out ∧ out ≠ [])
    (H3 : "python" ∈ packages → env.sysVersion ≠ "")
    (H4 : ∀ q ∈ packages, ¬ q ∈ parsed → q ≠ "") :
    ∃ rep s, watermark packages env = PyRes.ok (rep, s) ∧
      keysOf rep = internalKeys packages env ++
        dedupNotIn (internalKeys packages env)
          (packages.filter (fun q => !decide (q ∈ parsed))) := by
  cases hpip : env.pipList with
  | none => rw [hpip] at H1; cases H1
  | some pip_list =>
  have hk1 : keysOf (stepVirtualenv packages env []) =
      (if "virtualenv" ∈ packages then ["virtualenv"] else []) := by
    have h := keysOf_stepVirtualenv packages env [] (by simp [keysOf])
    simpa [keysOf] using h
  have hs1 : keysOf (stepVirtualenv packages env []) ⊆ ["virtualenv"] := by
    rw [hk1]; exact ite_singleton_sub _
  obtain ⟨l2, hok2, hk2⟩ := stepPython_ok packages env (stepVirtualenv packages env []) H3
    (fun hx => absurd (hs1 hx) (by decide))
  rw [hk1] at hk2
  have hs2 : keysOf l2 ⊆ ["virtualenv", "python"] := by
    rw [hk2]
    exact List.append_subset.2 ⟨(ite_singleton_sub _).trans (by decide),
      (ite_singleton_sub _).trans (by decide)⟩
  have hk3 : keysOf (stepHostname packages env l2) = keysOf l2 ++
      (if "hostname" ∈ packages then ["hostname"] else []) :=
    keysOf_stepHostname packages env l2 (fun hx => absurd (hs2 hx) (by decide))
  have hs3 : keysOf (stepHostname packages env l2) ⊆ ["virtualenv", "python", "hostname"] := by
    rw [hk3]
    exact List.append_subset.2 ⟨hs2.trans (by decide), (ite_singleton_sub _).trans (by decide)⟩
  obtain ⟨l4, hok4, hk4⟩ := stepNvidia_ok packages env (stepHostname packages env l2) H2
    (fun hx => absurd (hs3 hx) (by decide)) (fun hx => absurd (hs3 hx) (by decide))
  have hs4 : keysOf l4 ⊆ ["virtualenv", "python", "hostname", "nvidia driver", "nvidia cuda"] := by
    rw [hk4]
    exact List.append_subset.2 ⟨List.append_subset.2 ⟨hs3.trans (by decide),
      (ite_singleton_sub _).trans (by decide)⟩, (ite_singleton_sub _).trans (by decide)⟩
  rw [hk3] at hk4
  have hk5 : keysOf (stepCudnn packages env l4) = keysOf l4 ++
      (if "cudnn" ∈ packages ∧ env.platformIsLinux = true ∧ (env.cudnnFile).isSome = true
       then ["cudnn"] else []) :=
    keysOf_stepCudnn packages env l4 (fun hx => absurd (hs4 hx) (by decide))
  have hs5 : keysOf (stepCudnn packages env l4) ⊆
      ["virtualenv", "python", "hostname", "nvidia driver", "nvidia cuda", "cudnn"] := by
    rw [hk5]
    exact List.append_subset.2 ⟨hs4.trans (by decide), (ite_singleton_sub _).trans (by decide)⟩
  obtain ⟨l6, hok6, hk6⟩ := stepPipPkg_ok packages pip_list "keras" "Keras" "keras"
    (stepCudnn packages env l4) (by decide) (fun hx => absurd (hs5 hx) (by decide))
  have hs6 : keysOf l6 ⊆
      ["virtualenv", "python", "hostname", "nvidia driver", "nvidia cuda", "cudnn", "keras"] := by
    rw [hk6]
    exact List.append_subset.2 ⟨hs5.trans (by decide), (ite_singleton_sub _).trans (by decide)⟩
  rw [hk5] at hk6
  obtain ⟨l7, hok7, hk7⟩ := stepPipPkg_ok packages pip_list "tensorflow" "tensorflow-gpu"
    "tensorflow-gpu" l6 (by decide) (fun hx => absurd (hs6 hx) (by decide))
  have hs7 : keysOf l7 ⊆ ["virtualenv", "python", "hostname", "nvidia driver", "nvidia cuda",
      "cudnn", "keras", "tensorflow-gpu"] := by
    rw [hk7]
    exact List.append_subset.2 ⟨hs6.trans (by decide), (ite_singleton_sub _).trans (by decide)⟩
  obtain ⟨l8, hok8, hk8⟩ := stepPipPkg_ok packages pip_list "torch" "torch" "torch" l7
    (by decide) (fun hx => absurd (hs7 hx) (by decide))
  have hs8 : keysOf l8 ⊆ ["virtualenv", "python", "hostname", "nvidia driver", "nvidia cuda",
      "cudnn", "keras", "tensorflow-gpu", "torch"] := by
    rw [hk8]
    exact List.append_subset.2 ⟨hs7.trans (by decide), (ite_singleton_sub _).trans (by decide)⟩
  obtain ⟨l9, hok9, hk9⟩ := gitStep_ok packages pip_list env "sparseconvnet" l8
    (by decide) (fun hx => absurd (hs8 hx) (by decide))
  have hs9 : keysOf l9 ⊆ ["virtualenv", "python", "hostname", "nvidia driver", "nvidia cuda",
      "cudnn", "keras", "tensorflow-gpu", "torch", "sparseconvnet"] := by
    rw [hk9]
    exact List.append_subset.2 ⟨hs8.trans (by decide), (ite_singleton_sub _).trans (by decide)⟩
  obtain ⟨l10, hok10, hk10⟩ := gitStep_ok packages pip_list env "pytorch-lightning" l9
    (by decide) (fun hx => absurd (hs9 hx) (by decide))
  obtain ⟨lfin, hfin, hkfin⟩ := secondPass_ok_keys pip_list packages l10 H4
  have hk10i : keysOf l10 = internalKeys packages env := by
    rw [hk10, hk9, hk8, hk7, hk6, hk4, hk2]
    unfold internalKeys
    simp only [List.append_assoc]
  refine ⟨lfin, formatReport lfin, ?_, ?_⟩
  · unfold watermark
    rw [hok2]
    simp only [PyRes.bind]
    rw [hok4]
    simp only [PyRes.bind]
    have hgp : getPipList env = PyRes.ok pip_list := by
      unfold getPipList
      rw [hpip]
    rw [hgp]
    simp only [PyRes.bind]
    rw [hok6]
    simp only [PyRes.bind]
    rw [hok7]
    simp only [PyRes.bind]
    rw [hok8]
    simp only [PyRes.bind]
    rw [hok9]
    simp only [PyRes.bind]
    rw [hok10]
    simp only [PyRes.bind]
    rw [hfin]
  · rw [hkfin, hk10i]

lemma watermark_ok_inv (packages : List String) (env : Env)
    (rep : List (String × PyVal)) (s : String)
    (h : watermark packages env = PyRes.ok (rep, s)) :
    ∃ pip_list l2 l4 l6 l7 l8 l9 l10,
      env.pipList = some pip_list ∧
      stepPython packages env (stepVirtualenv packages env []) = PyRes.ok l2 ∧
      stepNvidia packages env (stepHostname packages env l2) = PyRes.ok l4 ∧
      stepPipPkg packages pip_list "keras" "Keras" "keras" (stepCudnn packages env l4) = PyRes.ok l6 ∧
      stepPipPkg packages pip_list "tensorflow" "tensorflow-gpu" "tensorflow-gpu" l6 = PyRes.ok l7 ∧
      stepPipPkg packages pip_list "torch" "torch" "torch" l7 = PyRes.ok l8 ∧
      gitStep packages pip_list env "sparseconvnet" l8 = PyRes.ok l9 ∧
      gitStep packages pip_list env "pytorch-lightning" l9 = PyRes.ok l10 ∧
      secondPass pip_list packages l10 = PyRes.ok rep ∧ s = formatReport rep := by
  unfold watermark at h
  cases hok2 : stepPython packages env (stepVirtualenv packages env []) with
  | exn e => rw [hok2] at h; simp only [PyRes.bind] at h; cases h
  | ok l2 =>
  rw [hok2] at h
  simp only [PyRes.bind] at h
  cases hok4 : stepNvidia packages env (stepHostname packages env l2) with
  | exn e => rw [hok4] at h; simp only [PyRes.bind] at h; cases h
  | ok l4 =>
  rw [hok4] at h
  simp only [PyRes.bind] at h
  cases hpip : env.pipList with
  | none =>
    have : getPipList env = PyRes.exn PyErr.subprocess := by
      unfold getPipList
      rw [hpip]
    rw [this] at h
    simp only [PyRes.bind] at h
    cases h
  | some pip_list =>
  have hgp : getPipList env = PyRes.ok pip_list := by
    unfold getPipList
    rw [hpip]
  rw [hgp] at h
  simp only [PyRes.bind] at h
  cases hok6 : stepPipPkg packages pip_list "keras" "Keras" "keras" (stepCudnn packages env l4) with
  | exn e => rw [hok6] at h; simp only [PyRes.bind] at h; cases h
  | ok l6 =>
  rw [hok6] at h
  simp only [PyRes.bind] at h
  cases hok7 : stepPipPkg packages pip_list "tensorflow" "tensorflow-gpu" "tensorflow-gpu" l6 with
  | exn e => rw [hok7] at h; simp only [PyRes.bind] at h; cases h
  | ok l7 =>
  rw [hok7] at h
  simp only [PyRes.bind] at h
  cases hok8 : stepPipPkg packages pip_list "torch" "torch" "torch" l7 with
  | exn e => rw [hok8] at h; simp only [PyRes.bind] at h; cases h
  | ok l8 =>
  rw [hok8] at h
  simp only [PyRes.bind] at h
  cases hok9 : gitStep packages pip_list env "sparseconvnet" l8 with
  | exn e => rw [hok9] at h; simp only [PyRes.bind] at h; cases h
  | ok l9 =>
  rw [hok9] at h
  simp only [PyRes.bind] at h
  cases hok10 : gitStep packages pip_list env "pytorch-lightning" l9 with
  | exn e => rw [hok10] at h; simp only [PyRes.bind] at h; cases h
  | ok l10 =>
  rw [hok10] at h
  simp only [PyRes.bind] at h
  cases hfin : secondPass pip_list packages l10 with
  | exn e => rw [hfin] at h; simp only [PyRes.bind] at h; cases h
  | ok lfin =>
  rw [hfin] at h
  simp only [PyRes.bind] at h
  injection h with h'
  rw [Prod.mk.injEq] at h'
  obtain ⟨h1, h2⟩ := h'
  subst h1
  exact ⟨pip_list, l2, l4, l6, l7, l8, l9, l10, rfl, rfl, hok4, hok6, hok7, hok8, hok9, hok10, hfin, h2.symm⟩

lemma parsed_sub_builtins (q : String) (hq : q ∈ parsed) : q ∈ builtins := by
  fin_cases hq <;> decide

lemma blockSub {c : Prop} [Decidable c] (y : String) :
    (if c then [y] else []).Sublist [y] := by
  split
  · exact List.Sublist.refl _
  · exact List.nil_sublist _

lemma internalKeys_nodup (packages : List String) (env : Env) :
    (internalKeys packages env).Nodup := by
  have hsub : (internalKeys packages env).Sublist
      (["virtualenv"] ++ ["python"] ++ ["hostname"] ++ ["nvidia driver"] ++
        ["nvidia cuda"] ++ ["cudnn"] ++ ["keras"] ++ ["tensorflow-gpu"] ++
        ["torch"] ++ ["sparseconvnet"] ++ ["pytorch-lightning"]) := by
    unfold internalKeys
    exact List.Sublist.append (List.Sublist.append (List.Sublist.append
      (List.Sublist.append (List.Sublist.append (List.Sublist.append
      (List.Sublist.append (List.Sublist.append (List.Sublist.append
      (List.Sublist.append (blockSub _) (blockSub _)) (blockSub _)) (blockSub _))
      (blockSub _)) (blockSub _)) (blockSub _)) (blockSub _)) (blockSub _))
      (blockSub _)) (blockSub _)
  exact List.Nodup.sublist hsub (by decide)

lemma dedupNotIn_nodup (l : List String) : ∀ seen, (dedupNotIn seen l).Nodup ∧
    ∀ x ∈ dedupNotIn seen l, x ∉ seen ∧ x ∈ l := by
  induction l with
  | nil =>
    intro seen
    exact ⟨List.nodup_nil, by simp [dedupNotIn]⟩
  | cons y ys ih =>
    intro seen
    by_cases hy : y ∈ seen
    · rw [dedupNotIn_mem_head ys seen y hy]
      refine ⟨(ih seen).1, fun x hx => ?_⟩
      obtain ⟨h1, h2⟩ := (ih seen).2 x hx
      exact ⟨h1, List.mem_cons_of_mem y h2⟩
    · rw [dedupNotIn_not_mem ys seen y hy]
      constructor
      · refine List.nodup_cons.2 ⟨fun hc => ?_, (ih (y :: seen)).1⟩
        exact ((ih (y :: seen)).2 y hc).1 (List.mem_cons_self y seen)
      · intro x hx
        rcases List.mem_cons.1 hx with rfl | hx'
        · exact ⟨hy, List.mem_cons_self x ys⟩
        · obtain ⟨h1, h2⟩ := (ih (y :: seen)).2 x hx'
          exact ⟨fun hc => h1 (List.mem_cons_of_mem y hc), List.mem_cons_of_mem y h2⟩

lemma lookup'_stepVirtualenv_mem (p : List String) (env : Env) (lines : List (String × PyVal))
    (hm : "virtualenv" ∈ p) :
    lookup' "virtualenv" (stepVirtualenv p env lines) = some (virtualenvVal env) := by
  unfold stepVirtualenv
  rw [if_pos hm]
  exact lookup'_odSet_self _ _ _

lemma watermark_lookup_virtualenv (packages : List String) (env : Env)
    (rep : List (String × PyVal)) (s : String)
    (h : watermark packages env = PyRes.ok (rep, s)) (hm : "virtualenv" ∈ packages) :
    lookup' "virtualenv" rep = some (virtualenvVal env) := by
  obtain ⟨pip, l2, l4, l6, l7, l8, l9, l10, hpip, hok2, hok4, hok6, hok7, hok8, hok9, hok10,
    hfin, hs⟩ := watermark_ok_inv packages env rep s h
  rw [secondPass_lookup_parsed pip packages l10 rep "virtualenv" (by decide) hfin,
    lookup'_gitStep_ne packages pip env "pytorch-lightning" l9 l10 "virtualenv" (by decide) hok10,
    lookup'_gitStep_ne packages pip env "sparseconvnet" l8 l9 "virtualenv" (by decide) hok9,
    lookup'_stepPipPkg_ne packages pip "torch" "torch" "torch" l7 l8 "virtualenv" (by decide) hok8,
    lookup'_stepPipPkg_ne packages pip "tensorflow" "tensorflow-gpu" "tensorflow-gpu" l6 l7
      "virtualenv" (by decide) hok7,
    lookup'_stepPipPkg_ne packages pip "keras" "Keras" "keras" (stepCudnn packages env l4) l6
      "virtualenv" (by decide) hok6,
    lookup'_stepCudnn_ne packages env l4 "virtualenv" (by decide),
    lookup'_stepNvidia_ne packages env (stepHostname packages env l2) l4 "virtualenv"
      (by decide) (by decide) hok4,
    lookup'_stepHostname_ne packages env l2 "virtualenv" (by decide),
    lookup'_stepPython_ne packages env (stepVirtualenv packages env []) l2 "virtualenv"
      (by decide) hok2,
    lookup'_stepVirtualenv_mem packages env [] hm]

lemma cudaProbeVal_none_noNvcc (env : Env) (h : env.nvcc = none) : cudaProbeVal env = none := by
  unfold cudaProbeVal
  rw [h]

lemma cudaProbeVal_of_find (env : Env) (nls : List String) (L : String) (parts : List String)
    (h : env.nvcc = some nls)
    (hf : nls.find? (fun l => pyIn "release" l && pyStartsWith l "release") = some L)
    (hs : pySplit (pyTrim L) "release" = PyRes.ok parts) :
    cudaProbeVal env = Option.map pyTrim (parts.get? 1) := by
  have hfil : find_in_lines nls "release" false = PyRes.ok (pyTrim L) := by
    simp only [find_in_lines, hf]
    simp
  simp only [cudaProbeVal, h, hfil, hs]
  cases parts.get? 1 <;> rfl

lemma cudaProbeVal_none_nofind (env : Env) (nls : List String)
    (h : env.nvcc = some nls)
    (hf : nls.find? (fun l => pyIn "release" l && pyStartsWith l "release") = none) :
    cudaProbeVal env = none := by
  have hfil : find_in_lines nls "release" false = PyRes.ok "" := by
    simp only [find_in_lines, hf]
  simp only [cudaProbeVal, h, hfil]
  decide

lemma watermark_lookup_nvidia (packages : List String) (env : Env)
    (rep : List (String × PyVal)) (s : String)
    (h : watermark packages env = PyRes.ok (rep, s)) (hm : "nvidia" ∈ packages)
    (hnd : ¬ "nvidia driver" ∈ packages) (hnc : ¬ "nvidia cuda" ∈ packages) :
    (∃ first, lookup' "nvidia driver" rep = some (PyVal.bytes first)) ∧
      lookup' "nvidia cuda" rep = Option.map PyVal.str (cudaProbeVal env) := by
  obtain ⟨pip, l2, l4, l6, l7, l8, l9, l10, hpip, hok2, hok4, hok6, hok7, hok8, hok9, hok10,
    hfin, hs⟩ := watermark_ok_inv packages env rep s h
  obtain ⟨first, rest, hsmi, hdrv, hcud⟩ :=
    stepNvidia_inv packages env (stepHostname packages env l2) l4 hm hok4
  have z : lookup' "nvidia cuda" (stepHostname packages env l2) = none := by
    rw [lookup'_stepHostname_ne packages env l2 "nvidia cuda" (by decide),
      lookup'_stepPython_ne packages env (stepVirtualenv packages env []) l2 "nvidia cuda"
        (by decide) hok2,
      lookup'_stepVirtualenv_ne packages env [] "nvidia cuda" (by decide)]
    rfl
  have hcud4 : lookup' "nvidia cuda" l4 = Option.map PyVal.str (cudaProbeVal env) := by
    rw [hcud]
    cases cudaProbeVal env with
    | none => simpa using z
    | some v => rfl
  constructor
  · refine ⟨first, ?_⟩
    rw [secondPass_lookup_notmem pip packages l10 rep "nvidia driver" hnd hfin,
      lookup'_gitStep_ne packages pip env "pytorch-lightning" l9 l10 "nvidia driver"
        (by decide) hok10,
      lookup'_gitStep_ne packages pip env "sparseconvnet" l8 l9 "nvidia driver"
        (by decide) hok9,
      lookup'_stepPipPkg_ne packages pip "torch" "torch" "torch" l7 l8 "nvidia driver"
        (by decide) hok8,
      lookup'_stepPipPkg_ne packages pip "tensorflow" "tensorflow-gpu" "tensorflow-gpu" l6 l7
        "nvidia driver" (by decide) hok7,
      lookup'_stepPipPkg_ne packages pip "keras" "Keras" "keras" (stepCudnn packages env l4) l6
        "nvidia driver" (by decide) hok6,
      lookup'_stepCudnn_ne packages env l4 "nvidia driver" (by decide), hdrv]
  · rw [secondPass_lookup_notmem pip packages l10 rep "nvidia cuda" hnc hfin,
      lookup'_gitStep_ne packages pip env "pytorch-lightning" l9 l10 "nvidia cuda"
        (by decide) hok10,
      lookup'_gitStep_ne packages pip env "sparseconvnet" l8 l9 "nvidia cuda"
        (by decide) hok9,
      lookup'_stepPipPkg_ne packages pip "torch" "torch" "torch" l7 l8 "nvidia cuda"
        (by decide) hok8,
      lookup'_stepPipPkg_ne packages pip "tensorflow" "tensorflow-gpu" "tensorflow-gpu" l6 l7
        "nvidia cuda" (by decide) hok7,
      lookup'_stepPipPkg_ne packages pip "keras" "Keras" "keras" (stepCudnn packages env l4) l6
        "nvidia cuda" (by decide) hok6,
      lookup'_stepCudnn_ne packages env l4 "nvidia cuda" (by decide), hcud4]

/-! Claim theorems. -/

/-- C1 counterexample: with `nvidia` requested and the GPU-driver tool
unavailable, `watermark` raises `CalledProcessError` to the caller instead
of returning a report with the other requested facts (`python` here). -/
theorem C1_counterexample :
    watermark ["nvidia", "python"] envBase = PyRes.exn PyErr.subprocess := by decide

/-- C1 (amended): the `nvidia-smi` call (and the `pip list` call) are not
guarded, so their failure escapes to the caller; but when the package
listing succeeds, `nvidia-smi` succeeds with at least one output line
whenever `nvidia` is requested, the version string is non-empty whenever
`python` is requested, and no empty identifier is requested outside the
`parsed` set, the call returns a report — failures of `nvcc`, of the cudnn
header read and of the git lookup never raise. -/
theorem C1_thm (packages : List String) (env : Env)
    (H1 : (env.pipList).isSome = true)
    (H2 : "nvidia" ∈ packages → ∃ out, env.nvidiaSmi = some out ∧ out ≠ [])
    (H3 : "python" ∈ packages → env.sysVersion ≠ "")
    (H4 : ∀ q ∈ packages, ¬ q ∈ parsed → q ≠ "") :
    ∃ rep s, watermark packages env = PyRes.ok (rep, s) := by
  obtain ⟨rep, s, h, _⟩ := watermark_ok_keys packages env H1 H2 H3 H4
  exact ⟨rep, s, h⟩

/-- C1 witness: a concrete run with `nvidia` requested, all unguarded tools
working and `nvcc` failing still returns a report. -/
theorem C1_witness :
    ∃ rep s, watermark ["nvidia", "python"] envSmi = PyRes.ok (rep, s) :=
  C1_thm ["nvidia", "python"] envSmi (by decide)
    (fun _ => ⟨["440.1"], rfl, by decide⟩)
    (fun _ => by decide)
    (by decide)

/-- C2 counterexample: requesting the single recognized identifier
`tensorflow` produces a report with two entries (`tensorflow-gpu` from the
dedicated branch and `tensorflow` from the final pass), not one. -/
theorem C2_counterexample :
    watermark ["tensorflow"] envBase =
      PyRes.ok ([("tensorflow-gpu", PyVal.str ""), ("tensorflow", PyVal.str "")],
        formatReport [("tensorflow-gpu", PyVal.str ""), ("tensorflow", PyVal.str "")]) ∧
    (keysOf [(("tensorflow-gpu" : String), PyVal.str ""), ("tensorflow", PyVal.str "")]).length = 2 := by
  constructor
  · decide
  · decide

/-- C2 (amended): under the success hypotheses the report keys are exactly
the internal labels of the requested built-in branches (one label per
branch, except that `nvidia` also yields `nvidia cuda` when the toolkit
probe succeeds, `cudnn` yields its label only when the header probe runs
and succeeds, and `tensorflow` stores under `tensorflow-gpu`), followed by
the non-`parsed` requested identifiers in first-occurrence order with
already-present labels dropped; each key occurs exactly once. -/
theorem C2_thm (packages : List String) (env : Env)
    (H1 : (env.pipList).isSome = true)
    (H2 : "nvidia" ∈ packages → ∃ out, env.nvidiaSmi = some out ∧ out ≠ [])
    (H3 : "python" ∈ packages → env.sysVersion ≠ "")
    (H4 : ∀ q ∈ packages, ¬ q ∈ parsed → q ≠ "") :
    ∃ rep s, watermark packages env = PyRes.ok (rep, s) ∧ (keysOf rep).Nodup ∧
      ∀ K, K ∈ keysOf rep ↔ (K ∈ internalKeys packages env ∨
        K ∈ dedupNotIn (internalKeys packages env)
          (packages.filter (fun q => !decide (q ∈ parsed)))) := by
  obtain ⟨rep, s, h, hkeys⟩ := watermark_ok_keys packages env H1 H2 H3 H4
  refine ⟨rep, s, h, ?_, ?_⟩
  · rw [hkeys]
    refine List.Nodup.append (internalKeys_nodup packages env)
      (dedupNotIn_nodup _ _).1 (List.disjoint_right.2 ?_)
    intro a ha
    exact ((dedupNotIn_nodup _ _).2 a ha).1
  · intro K
    rw [hkeys]
    exact List.mem_append

/-- C2 witness: a concrete report containing both the `tensorflow` entries
and a custom identifier, with no duplicate keys. -/
theorem C2_witness :
    ∃ rep s, watermark ["tensorflow", "foo"] envBase = PyRes.ok (rep, s) ∧
      (keysOf rep).Nodup ∧
      ("foo" ∈ keysOf rep ↔ ("foo" ∈ internalKeys ["tensorflow", "foo"] envBase ∨
        "foo" ∈ dedupNotIn (internalKeys ["tensorflow", "foo"] envBase)
          ((["tensorflow", "foo"] : List String).filter (fun q => !decide (q ∈ parsed))))) := by
  obtain ⟨rep, s, h1, h2, h3⟩ := C2_thm ["tensorflow", "foo"] envBase (by decide)
    (fun hc => absurd hc (by decide)) (fun hc => absurd hc (by decide)) (by decide)
  exact ⟨rep, s, h1, h2, h3 "foo"⟩

/-- C3 counterexample: `nvcc` runs successfully and its output line contains
the word `release`, yet no `nvidia cuda` entry is produced, because the
code additionally requires the line to start with `release`. -/
theorem C3_counterexample :
    watermark ["nvidia"] envC3cex =
      PyRes.ok ([("nvidia driver", PyVal.bytes "440.1")],
        formatReport [("nvidia driver", PyVal.bytes "440.1")]) ∧
    pyIn "release" "Cuda compilation tools, release 9.1, V9.1.85" = true ∧
    lookup' "nvidia cuda" [(("nvidia driver" : String), PyVal.bytes "440.1")] = none := by
  refine ⟨by decide, by decide, by decide⟩

/-- C3 (amended): when `nvidia` is requested (and neither internal nvidia
label is itself requested as a package), the report always has a driver
entry, and its `nvidia cuda` entry is exactly the result of the guarded
`nvcc` probe: the probe takes the first output line that starts with
`release`, strips it, splits it on `release`, and yields piece 1 stripped;
it yields nothing when `nvcc` fails or no line starts with `release`, in
which case the toolkit entry is absent while the driver entry is present. -/
theorem C3_thm (packages : List String) (env : Env)
    (rep : List (String × PyVal)) (s : String)
    (h : watermark packages env = PyRes.ok (rep, s)) (hm : "nvidia" ∈ packages)
    (hnd : ¬ "nvidia driver" ∈ packages) (hnc : ¬ "nvidia cuda" ∈ packages) :
    (∃ first, lookup' "nvidia driver" rep = some (PyVal.bytes first)) ∧
    lookup' "nvidia cuda" rep = Option.map PyVal.str (cudaProbeVal env) ∧
    (∀ nls L parts, env.nvcc = some nls →
      nls.find? (fun l => pyIn "release" l && pyStartsWith l "release") = some L →
      pySplit (pyTrim L) "release" = PyRes.ok parts →
      cudaProbeVal env = Option.map pyTrim (parts.get? 1)) ∧
    (env.nvcc = none → cudaProbeVal env = none) ∧
    (∀ nls, env.nvcc = some nls →
      nls.find? (fun l => pyIn "release" l && pyStartsWith l "release") = none →
      cudaProbeVal env = none) := by
  obtain ⟨hd, hc⟩ := watermark_lookup_nvidia packages env rep s h hm hnd hnc
  exact ⟨hd, hc, fun nls L parts h1 h2 h3 => cudaProbeVal_of_find env nls L parts h1 h2 h3,
    fun h1 => cudaProbeVal_none_noNvcc env h1,
    fun nls h1 h2 => cudaProbeVal_none_nofind env nls h1 h2⟩

/-- C3 witness: with an `nvcc` line starting with `release`, the report has
both nvidia entries and the cuda value is the stripped split piece. -/
theorem C3_witness :
    (∃ first, lookup' "nvidia driver"
      [(("nvidia driver" : String), PyVal.bytes "440.1"), ("nvidia cuda", PyVal.str "9.1, V9")] =
        some (PyVal.bytes first)) ∧
    lookup' "nvidia cuda"
      [(("nvidia driver" : String), PyVal.bytes "440.1"), ("nvidia cuda", PyVal.str "9.1, V9")] =
      Option.map PyVal.str (cudaProbeVal envC3wit) := by
  have h := C3_thm ["nvidia"] envC3wit
    [("nvidia driver", PyVal.bytes "440.1"), ("nvidia cuda", PyVal.str "9.1, V9")]
    (formatReport [("nvidia driver", PyVal.bytes "440.1"), ("nvidia cuda", PyVal.str "9.1, V9")])
    (by decide) (by decide) (by decide) (by decide)
  exact ⟨h.1, h.2.1⟩

/-- C4: whenever `watermark` returns and `virtualenv` was requested, the
entry's value is `PS1` when that variable is set (even if `VIRTUAL_ENV` is
also set), else `VIRTUAL_ENV` when set, else the empty value (Python
`None`). -/
theorem C4_thm (packages : List String) (env : Env)
    (rep : List (String × PyVal)) (s : String)
    (h : watermark packages env = PyRes.ok (rep, s)) (hm : "virtualenv" ∈ packages) :
    (∀ p, env.PS1 = some p → lookup' "virtualenv" rep = some (PyVal.str p)) ∧
    (env.PS1 = none → ∀ v, env.VIRTUAL_ENV = some v →
      lookup' "virtualenv" rep = some (PyVal.str v)) ∧
    (env.PS1 = none → env.VIRTUAL_ENV = none →
      lookup' "virtualenv" rep = some PyVal.pyNone) := by
  have hv := watermark_lookup_virtualenv packages env rep s h hm
  refine ⟨fun p hp => ?_, fun hp v hvv => ?_, fun hp hvv => ?_⟩
  · rw [hv]
    unfold virtualenvVal
    rw [hp]
  · rw [hv]
    unfold virtualenvVal
    rw [hp, hvv]
  · rw [hv]
    unfold virtualenvVal
    rw [hp, hvv]

/-- C4 witness: with both `PS1` and `VIRTUAL_ENV` set, the entry takes the
`PS1` value. -/
theorem C4_witness :
    lookup' "virtualenv" [(("virtualenv" : String), PyVal.str "(venv)")] =
      some (PyVal.str "(venv)") :=
  (C4_thm ["virtualenv"] envC4wit [("virtualenv", PyVal.str "(venv)")]
    (formatReport [("virtualenv", PyVal.str "(venv)")]) (by decide) (by decide)).1
    "(venv)" rfl

/-- C5 counterexample: requesting `python` before `virtualenv` still
produces the `virtualenv` entry first — built-in entries follow the fixed
order of the code's branches, not the request order. -/
theorem C5_counterexample :
    watermark ["python", "virtualenv"] envBase =
      PyRes.ok ([("virtualenv", PyVal.pyNone), ("python", PyVal.str "3.6.9")],
        formatReport [("virtualenv", PyVal.pyNone), ("python", PyVal.str "3.6.9")]) := by
  decide

/-- C5 (amended): under the success hypotheses the report lists the
built-in entries first, in the fixed order of the code's branches
(`virtualenv`, `python`, `hostname`, `nvidia driver`, `nvidia cuda`,
`cudnn`, `keras`, `tensorflow-gpu`, `torch`, `sparseconvnet`,
`pytorch-lightning`) regardless of request order, and then the non-`parsed`
identifiers in first-occurrence request order, skipping labels already
present. -/
theorem C5_thm (packages : List String) (env : Env)
    (H1 : (env.pipList).isSome = true)
    (H2 : "nvidia" ∈ packages → ∃ out, env.nvidiaSmi = some out ∧ out ≠ [])
    (H3 : "python" ∈ packages → env.sysVersion ≠ "")
    (H4 : ∀ q ∈ packages, ¬ q ∈ parsed → q ≠ "") :
    ∃ rep s, watermark packages env = PyRes.ok (rep, s) ∧
      keysOf rep = internalKeys packages env ++
        dedupNotIn (internalKeys packages env)
          (packages.filter (fun q => !decide (q ∈ parsed))) :=
  watermark_ok_keys packages env H1 H2 H3 H4

/-- C5 witness: a concrete request in scrambled order yields the fixed
built-in order followed by the custom identifier. -/
theorem C5_witness :
    ∃ rep s, watermark ["foo", "python", "virtualenv"] envBase = PyRes.ok (rep, s) ∧
      keysOf rep = internalKeys ["foo", "python", "virtualenv"] envBase ++
        dedupNotIn (internalKeys ["foo", "python", "virtualenv"] envBase)
          ((["foo", "python", "virtualenv"] : List String).filter
            (fun q => !decide (q ∈ parsed))) :=
  C5_thm ["foo", "python", "virtualenv"] envBase (by decide)
    (fun hc => absurd hc (by decide)) (fun _ => by decide) (by decide)

/-- C6: whenever `watermark` returns, any requested identifier that is not
one of the specially treated names and is a prefix of no listing line gets
an entry with the empty-string value, and its resolution itself cannot
raise. -/
theorem C6_thm (packages : List String) (env : Env)
    (rep : List (String × PyVal)) (s : String) (pkg : String) (pl : List String)
    (h : watermark packages env = PyRes.ok (rep, s)) (hpl : env.pipList = some pl)
    (hm : pkg ∈ packages) (hnb : ¬ pkg ∈ builtins)
    (hnl : ∀ line ∈ pl, pyStartsWith line pkg = false) :
    find_in_lines pl pkg true = PyRes.ok "" ∧
      lookup' pkg rep = some (PyVal.str "") := by
  have hnp : ¬ pkg ∈ parsed := fun hc => hnb (parsed_sub_builtins pkg hc)
  have hfind : find_in_lines pl pkg true = PyRes.ok "" := by
    unfold find_in_lines
    rw [List.find?_eq_none.2 (fun line hline => by
      simp only [Bool.and_eq_true]
      exact fun hc => by rw [hnl line hline] at hc; exact absurd hc.2 (by simp))]
  refine ⟨hfind, ?_⟩
  obtain ⟨pip, l2, l4, l6, l7, l8, l9, l10, hpip, hok2, hok4, hok6, hok7, hok8, hok9, hok10,
    hfin, hs⟩ := watermark_ok_inv packages env rep s h
  have hpp : pip = pl := by
    rw [hpip] at hpl
    injection hpl
  subst hpp
  obtain ⟨v, hv, hlv⟩ := secondPass_lookup_mem pip packages l10 rep pkg hm hnp hfin
  rw [hfind] at hv
  injection hv.symm with hveq
  rw [hveq] at hlv
  exact hlv

/-- C6 witness: `foo` is not installed in the one-line listing, yet its
entry is present with an empty value. -/
theorem C6_witness :
    find_in_lines ["numpy 1.0"] "foo" true = PyRes.ok "" ∧
      lookup' "foo" [(("foo" : String), PyVal.str "")] = some (PyVal.str "") :=
  C6_thm ["foo"] envC6wit [("foo", PyVal.str "")]
    (formatReport [("foo", PyVal.str "")]) "foo" ["numpy 1.0"]
    (by decide) (by decide) (by decide) (by decide) (by decide)

/-! Lemmas for the formatting round-trip (C7). -/

lemma data_append (s t : String) : (s ++ t).data = s.data ++ t.data := rfl

lemma mk_data (s : String) : String.mk s.data = s := by cases s; rfl

lemma splitOnNl_no_nl (x : List Char) (h : ∀ c ∈ x, c ≠ '\n') : splitOnNl x = [x] := by
  induction x with
  | nil => rfl
  | cons c cs ih =>
    unfold splitOnNl
    rw [if_neg (h c (List.mem_cons_self c cs))]
    rw [ih (fun c' hc' => h c' (List.mem_cons_of_mem c hc'))]

lemma splitOnNl_cons (c : Char) (cs : List Char) :
    splitOnNl (c :: cs) =
      if c = '\n' then [] :: splitOnNl cs
      else
        match splitOnNl cs with
        | [] => [[c]]
        | h :: t => (c :: h) :: t := rfl

lemma splitOnNl_append (ys : List Char) : ∀ x : List Char, (∀ c ∈ x, c ≠ '\n') →
    splitOnNl (x ++ '\n' :: ys) = x :: splitOnNl ys := by
  intro x
  induction x with
  | nil =>
    intro _
    simp only [List.nil_append]
    rw [splitOnNl_cons, if_pos rfl]
  | cons c cs ih =>
    intro h
    simp only [List.cons_append]
    rw [splitOnNl_cons, if_neg (h c (List.mem_cons_self c cs)),
      ih (fun c' hc' => h c' (List.mem_cons_of_mem c hc'))]

lemma pyJoin_splitOnNl : ∀ l : List String, l ≠ [] →
    (∀ x ∈ l, ∀ c ∈ x.data, c ≠ '\n') →
    splitOnNl ((pyJoin "\n" l).data) = l.map String.data := by
  intro l
  induction l with
  | nil => intro h; exact absurd rfl h
  | cons x rest ih =>
    intro _ hnl
    cases rest with
    | nil =>
      show splitOnNl x.data = [x.data]
      exact splitOnNl_no_nl x.data (hnl x (List.mem_cons_self x []))
    | cons y rest' =>
      have hx : ∀ c ∈ x.data, c ≠ '\n' := hnl x (List.mem_cons_self x (y :: rest'))
      have hjoin : (pyJoin "\n" (x :: y :: rest')).data =
          x.data ++ '\n' :: (pyJoin "\n" (y :: rest')).data := by
        show ((x ++ "\n") ++ pyJoin "\n" (y :: rest')).data = _
        rw [data_append, data_append]
        simp
      rw [hjoin, splitOnNl_append _ x.data hx,
        ih (by simp) (fun z hz => hnl z (List.mem_cons_of_mem x hz))]
      rfl

lemma lineOf_data (e : String × PyVal) :
    (lineOf e).data = (pad15 (e.1 ++ ":")).data ++ ' ' :: (formatVal e.2).data := by
  show ((pad15 (e.1 ++ ":") ++ " ") ++ formatVal e.2).data = _
  rw [data_append, data_append]
  simp

lemma lineOf_ne_empty (e : String × PyVal) : lineOf e ≠ "" := by
  intro h
  have hd : (lineOf e).data = [] := by rw [h]
  rw [lineOf_data] at hd
  exact absurd hd (by simp)

/-- C7 counterexample: a request containing the empty identifier produces a
report entry whose label is empty — "labels are never empty" fails. -/
theorem C7_counterexample :
    watermark [""] envBase =
      PyRes.ok ([("", PyVal.str "")], formatReport [("", PyVal.str "")]) ∧
    keysOf [(("" : String), PyVal.str "")] = [""] := by
  exact ⟨by decide, by decide⟩

/-- C7 (amended): for a report none of whose lines contains a newline
character (no newline in any label or value), the formatted text splits on
newlines into exactly one line per entry, in report order, each line being
the padded label-colon followed by the value, and each line non-empty;
labels themselves can be empty when an empty identifier was requested. -/
theorem C7_thm (rep : List (String × PyVal))
    (hnl : ∀ e ∈ rep, ∀ c ∈ (lineOf e).data, c ≠ '\n') :
    pySplitlines (formatReport rep) = rep.map lineOf ∧
    (pySplitlines (formatReport rep)).length = rep.length ∧
    ∀ l ∈ pySplitlines (formatReport rep), l ≠ "" := by
  cases rep with
  | nil =>
    refine ⟨rfl, rfl, ?_⟩
    intro l hl
    rw [show pySplitlines (formatReport []) = [] from rfl] at hl
    exact absurd hl (List.not_mem_nil l)
  | cons e rest =>
    have hnl' : ∀ x ∈ (e :: rest).map lineOf, ∀ c ∈ x.data, c ≠ '\n' := by
      intro x hx c hc
      obtain ⟨e', he', hxe⟩ := List.mem_map.1 hx
      exact hnl e' he' c (hxe ▸ hc)
    have hsplit := pyJoin_splitOnNl ((e :: rest).map lineOf) (by simp) hnl'
    have hne : formatReport (e :: rest) ≠ "" := by
      intro hz
      have : splitOnNl ((formatReport (e :: rest)).data) = [[]] := by
        rw [hz]
        rfl
      rw [formatReport] at this
      rw [hsplit] at this
      have hh : (lineOf e).data = [] := by
        have := congrArg List.head? this
        simpa using this
      rw [lineOf_data] at hh
      exact absurd hh (by simp)
    have heq : pySplitlines (formatReport (e :: rest)) = (e :: rest).map lineOf := by
      unfold pySplitlines
      rw [if_neg hne]
      unfold formatReport
      rw [hsplit, List.map_map]
      have : (fun l => String.mk l) ∘ String.data = id := by
        funext z
        exact mk_data z
      rw [this, List.map_id]
    refine ⟨heq, by rw [heq]; simp, ?_⟩
    intro l hl
    rw [heq] at hl
    obtain ⟨e', _, hxe⟩ := List.mem_map.1 hl
    exact hxe ▸ lineOf_ne_empty e'

/-- C7 witness: a one-entry report formats to one non-empty line. -/
theorem C7_witness :
    pySplitlines (formatReport [("python", PyVal.str "3.6")]) =
      [(("python" : String), PyVal.str "3.6")].map lineOf ∧
    (pySplitlines (formatReport [("python", PyVal.str "3.6")])).length = 1 ∧
    ∀ l ∈ pySplitlines (formatReport [("python", PyVal.str "3.6")]), l ≠ "" :=
  C7_thm [("python", PyVal.str "3.6")] (by decide)

/-! Lemmas for `sparse_to_dense_sgnn` (C8). -/

lemma assignAt_not_mem (cs : List ((Nat × Nat × Nat) × Int)) :
    ∀ (base : Nat → Nat → Nat → Int) (i j k : Nat),
    (∀ cv ∈ cs, cv.1 ≠ (i, j, k)) → assignAt base cs i j k = base i j k := by
  induction cs with
  | nil => intro base i j k _; rfl
  | cons cv rest ih =>
    intro base i j k h
    show assignAt (fun i j k => if (i, j, k) = cv.1 then cv.2 else base i j k) rest i j k = _
    rw [ih _ i j k (fun cv' hcv' => h cv' (List.mem_cons_of_mem cv hcv'))]
    rw [if_neg (fun hc => (h cv (List.mem_cons_self cv rest)) hc.symm)]

lemma assignAt_mem (cs : List ((Nat × Nat × Nat) × Int)) :
    ∀ (base : Nat → Nat → Nat → Int) (c : Nat × Nat × Nat) (v : Int),
    (cs.map Prod.fst).Nodup → (c, v) ∈ cs →
    assignAt base cs c.1 c.2.1 c.2.2 = v := by
  induction cs with
  | nil =>
    intro base c v _ hm
    exact absurd hm (List.not_mem_nil _)
  | cons cv rest ih =>
    intro base c v hnd hm
    rcases List.mem_cons.1 hm with rfl | hm'
    · show assignAt (fun i j k => if (i, j, k) = (c, v).1 then (c, v).2 else base i j k)
        rest c.1 c.2.1 c.2.2 = v
      have hfresh : ∀ cv' ∈ rest, cv'.1 ≠ (c.1, c.2.1, c.2.2) := by
        intro cv' hcv' hc
        have : c ∉ rest.map Prod.fst := by
          have := (List.nodup_cons.1 hnd).1
          simpa using this
        apply this
        have : cv'.1 = c := by
          rw [hc]
        exact this ▸ List.mem_map_of_mem Prod.fst hcv'
      rw [assignAt_not_mem rest _ c.1 c.2.1 c.2.2 hfresh]
      rw [if_pos]
      rfl
    · exact ih _ c v (List.nodup_cons.1 hnd).2 hm'

/-- C8 counterexample: with a duplicated coordinate row, the stored value is
the negation of the later `sdf` value, so the entry does not equal the
negation of the earlier row's value as the claim demands for every listed
pair. -/
theorem C8_counterexample :
    ((((0, 0, 0) : Nat × Nat × Nat), (1 : Int)) ∈
      ([((0, 0, 0) : Nat × Nat × Nat), (0, 0, 0)].zip ([1, 2] : List Int))) ∧
    (sparse_to_dense_sgnn [(0, 0, 0), (0, 0, 0)] [1, 2] (1, 1, 1) 7).val 0 0 0 0 = -2 ∧
    ¬ (sparse_to_dense_sgnn [(0, 0, 0), (0, 0, 0)] [1, 2] (1, 1, 1) 7).val 0 0 0 0 = -1 := by
  refine ⟨by decide, by decide, by decide⟩

/-- C8 (amended): for coordinate rows that are pairwise distinct, in bounds
for `dims`, and matched in length by `sdf`, the result has shape
`(1,) + dims`, holds the negated `sdf` value at every listed coordinate,
and holds `fillna` at every unlisted coordinate. -/
theorem C8_thm (coords : List (Nat × Nat × Nat)) (sdf : List Int)
    (dims : Nat × Nat × Nat) (fillna : Int)
    (hnd : coords.Nodup) (hlen : sdf.length = coords.length)
    (hbound : ∀ c ∈ coords, c.1 < dims.1 ∧ c.2.1 < dims.2.1 ∧ c.2.2 < dims.2.2) :
    (sparse_to_dense_sgnn coords sdf dims fillna).shape = [1, dims.1, dims.2.1, dims.2.2] ∧
    (∀ p ∈ coords.zip sdf,
      (sparse_to_dense_sgnn coords sdf dims fillna).val 0 p.1.1 p.1.2.1 p.1.2.2 = -p.2) ∧
    (∀ i j k, (i, j, k) ∉ coords →
      (sparse_to_dense_sgnn coords sdf dims fillna).val 0 i j k = fillna) := by
  have hkeys : (((coords.zip sdf).map (fun p => (p.1, -p.2))).map Prod.fst) = coords := by
    rw [List.map_map]
    have : (Prod.fst ∘ fun p : (Nat × Nat × Nat) × Int => (p.1, -p.2)) =
        fun p : (Nat × Nat × Nat) × Int => p.1 := rfl
    rw [this]
    exact List.map_fst_zip coords sdf (by omega)
  refine ⟨rfl, ?_, ?_⟩
  · intro p hp
    show assignAt (fun _ _ _ => fillna) ((coords.zip sdf).map (fun p => (p.1, -p.2)))
      p.1.1 p.1.2.1 p.1.2.2 = -p.2
    have hmem : (p.1, -p.2) ∈ (coords.zip sdf).map (fun p => (p.1, -p.2)) :=
      List.mem_map_of_mem _ hp
    exact assignAt_mem _ _ p.1 (-p.2) (by rw [hkeys]; exact hnd) hmem
  · intro i j k hnm
    show assignAt (fun _ _ _ => fillna) ((coords.zip sdf).map (fun p => (p.1, -p.2)))
      i j k = fillna
    refine assignAt_not_mem _ _ i j k ?_
    intro cv hcv hc
    apply hnm
    rw [← hc]
    have : cv.1 ∈ ((coords.zip sdf).map (fun p => (p.1, -p.2))).map Prod.fst :=
      List.mem_map_of_mem Prod.fst hcv
    rw [hkeys] at this
    exact this

/-- C8 witness: a concrete two-point assignment into a 1×2×1 volume. -/
theorem C8_witness :
    (sparse_to_dense_sgnn [(0, 0, 0), (0, 1, 0)] [1, 2] (1, 2, 1) 7).shape = [1, 1, 2, 1] ∧
    (∀ p ∈ ([((0, 0, 0) : Nat × Nat × Nat), (0, 1, 0)].zip ([1, 2] : List Int)),
      (sparse_to_dense_sgnn [(0, 0, 0), (0, 1, 0)] [1, 2] (1, 2, 1) 7).val 0 p.1.1 p.1.2.1 p.1.2.2 = -p.2) ∧
    (∀ i j k, (i, j, k) ∉ ([((0, 0, 0) : Nat × Nat × Nat), (0, 1, 0)]) →
      (sparse_to_dense_sgnn [(0, 0, 0), (0, 1, 0)] [1, 2] (1, 2, 1) 7).val 0 i j k = 7) :=
  C8_thm [(0, 0, 0), (0, 1, 0)] [1, 2] (1, 2, 1) 7 (by decide) (by decide) (by decide)

/-! Lemmas for `split_coords_features` (C9). -/

lemma foldl_max_ge_init (l : List Int) : ∀ b : Int, b ≤ l.foldl max b := by
  induction l with
  | nil => intro b; exact le_refl b
  | cons y l ih =>
    intro b
    exact le_trans (le_max_left b y) (ih (max b y))

lemma intListMax_nonneg (l : List Int) (hne : l ≠ []) (hpos : ∀ e ∈ l, 0 ≤ e) :
    0 ≤ intListMax l := by
  cases l with
  | nil => exact absurd rfl hne
  | cons x rest =>
    exact le_trans (hpos x (List.mem_cons_self x rest)) (foldl_max_ge_init rest x)

lemma maskFilter_self {A : Type} (p : A → Bool) (xs : List A) :
    maskFilter (xs.map p) xs = xs.filter p := by
  induction xs with
  | nil => rfl
  | cons x rest ih =>
    cases hp : p x with
    | true =>
      rw [List.map_cons, hp]
      show x :: maskFilter (rest.map p) rest = _
      rw [ih, List.filter_cons_of_pos hp]
    | false =>
      rw [List.map_cons, hp]
      show maskFilter (rest.map p) rest = _
      have hneg : ¬ p x = true := by simp [hp]
      rw [ih, List.filter_cons_of_neg hneg]

lemma filter_pair_cons {A B : Type} (p : A → Bool) (x : A) (y : B) (l : List (A × B)) :
    List.filter (fun q => p q.1) ((x, y) :: l) =
      if p x then (x, y) :: List.filter (fun q => p q.1) l
      else List.filter (fun q => p q.1) l := by
  cases hp : p x with
  | true => simp [List.filter_cons, hp]
  | false => simp [List.filter_cons, hp]

lemma maskFilter_zip_snd {A B : Type} (p : A → Bool) :
    ∀ (xs : List A) (ys : List B), ys.length = xs.length →
    maskFilter (xs.map p) ys = ((xs.zip ys).filter (fun q => p q.1)).map Prod.snd := by
  intro xs
  induction xs with
  | nil =>
    intro ys h
    cases ys with
    | nil => rfl
    | cons y ys' => simp at h
  | cons x xs' ih =>
    intro ys h
    cases ys with
    | nil => simp at h
    | cons y ys' =>
      simp only [List.length_cons] at h
      cases hp : p x with
      | true =>
        rw [List.map_cons, hp]
        show y :: maskFilter (xs'.map p) ys' = _
        rw [List.zip_cons_cons, filter_pair_cons, if_pos hp, List.map_cons,
          ih ys' (by omega)]
      | false =>
        rw [List.map_cons, hp]
        show maskFilter (xs'.map p) ys' = _
        rw [List.zip_cons_cons, filter_pair_cons, if_neg (by simp [hp]),
          ih ys' (by omega)]

lemma filter_zip_fst {A B : Type} (p : A → Bool) :
    ∀ (xs : List A) (ys : List B), ys.length = xs.length →
    ((xs.zip ys).filter (fun q => p q.1)).map Prod.fst = xs.filter p := by
  intro xs
  induction xs with
  | nil => intro ys _; simp
  | cons x xs' ih =>
    intro ys h
    cases ys with
    | nil => simp at h
    | cons y ys' =>
      simp only [List.length_cons] at h
      cases hp : p x with
      | true =>
        rw [List.zip_cons_cons, filter_pair_cons, if_pos hp, List.map_cons,
          ih ys' (by omega), List.filter_cons_of_pos hp]
      | false =>
        rw [List.zip_cons_cons, filter_pair_cons, if_neg (by simp [hp]),
          ih ys' (by omega), List.filter_cons_of_neg (by simp [hp])]

lemma getElem_range_map {γ : Type} (N : Nat) (f : Nat → γ) (i : Nat)
    (h : i < ((List.range N).map f).length) : ((List.range N).map f)[i] = f i := by
  rw [List.getElem_map, List.getElem_range]

/-- C9: with a non-empty 4-column coordinate array whose batch indices are
non-negative with maximum `M`, and matching feature rows, the function
returns `M + 1` pairs; pair `i` holds exactly the first-three-column rows
and feature rows whose batch index is `i`, and a batch index occurring in
no row yields the empty pair. -/
theorem C9_thm {F : Type} (coords : List (Int × Int × Int × Int)) (features : List F)
    (hne : coords ≠ []) (hpos : ∀ c ∈ coords, 0 ≤ c.2.2.2)
    (hlen : features.length = coords.length) :
    (split_coords_features coords features).length =
      (intListMax (coords.map (fun c => c.2.2.2))).toNat + 1 ∧
    (∀ i (h : i < (split_coords_features coords features).length),
      (split_coords_features coords features)[i] =
        (((coords.zip features).filter (fun q => decide (q.1.2.2.2 = (i : Int)))).map
            (fun q => fst3 q.1),
         ((coords.zip features).filter (fun q => decide (q.1.2.2.2 = (i : Int)))).map
            Prod.snd)) ∧
    (∀ i (h : i < (split_coords_features coords features).length),
      ((i : Int)) ∉ coords.map (fun c => c.2.2.2) →
      (split_coords_features coords features)[i] = ([], [])) := by
  have hmax : 0 ≤ intListMax (coords.map (fun c => c.2.2.2)) := by
    refine intListMax_nonneg _ ?_ ?_
    · intro hc
      exact hne (List.map_eq_nil_iff.1 hc)
    · intro e he
      obtain ⟨c, hc, rfl⟩ := List.mem_map.1 he
      exact hpos c hc
  have hrepr : split_coords_features coords features =
      (List.range ((intListMax (coords.map (fun c => c.2.2.2))) + 1).toNat).map
        (fun (j : Nat) => ((maskFilter ((coords.map (fun c => c.2.2.2)).map
            (fun e => decide (e = (j : Int)))) coords).map fst3,
          maskFilter ((coords.map (fun c => c.2.2.2)).map
            (fun e => decide (e = (j : Int)))) features)) := rfl
  have hlen1 : (split_coords_features coords features).length =
      ((intListMax (coords.map (fun c => c.2.2.2))) + 1).toNat := by
    rw [hrepr, List.length_map, List.length_range]
  have hcomp : ∀ i (h : i < (split_coords_features coords features).length),
      (split_coords_features coords features)[i] =
        (((coords.zip features).filter (fun q => decide (q.1.2.2.2 = (i : Int)))).map
            (fun q => fst3 q.1),
         ((coords.zip features).filter (fun q => decide (q.1.2.2.2 = (i : Int)))).map
            Prod.snd) := by
    intro i h
    simp only [hrepr] at h ⊢
    rw [getElem_range_map]
    have hmaps : (coords.map (fun c => c.2.2.2)).map (fun e => decide (e = (i : Int))) =
        coords.map (fun c => decide (c.2.2.2 = (i : Int))) := by
      rw [List.map_map]
      rfl
    rw [hmaps, maskFilter_self, maskFilter_zip_snd _ coords features hlen,
      ← filter_zip_fst (fun c => decide (c.2.2.2 = (i : Int))) coords features hlen,
      List.map_map]
    rfl
  refine ⟨?_, hcomp, ?_⟩
  · rw [hlen1, Int.toNat_add hmax (by omega)]
    rfl
  · intro i h hnm
    rw [hcomp i h]
    have hfil : (coords.zip features).filter (fun q => decide (q.1.2.2.2 = (i : Int))) = [] := by
      rw [List.filter_eq_nil_iff]
      intro q hq hc
      apply hnm
      simp only [decide_eq_true_eq] at hc
      obtain ⟨c0, f0⟩ := q
      have hqc : c0 ∈ coords := (List.of_mem_zip hq).1
      rw [← hc]
      exact List.mem_map_of_mem (fun c => c.2.2.2) hqc
    rw [hfil]
    rfl

/-- C9 witness: two batches, the second row belonging to batch 0 and the
first to batch 1. -/
theorem C9_witness :
    (split_coords_features [((0 : Int), (0 : Int), (0 : Int), (1 : Int)), (1, 2, 3, 0)]
      ([10, 20] : List Int)).length =
      (intListMax ([((0 : Int), (0 : Int), (0 : Int), (1 : Int)), (1, 2, 3, 0)].map
        (fun c => c.2.2.2))).toNat + 1 ∧
    (∀ i (h : i < (split_coords_features [((0 : Int), (0 : Int), (0 : Int), (1 : Int)), (1, 2, 3, 0)]
        ([10, 20] : List Int)).length),
      (split_coords_features [((0 : Int), (0 : Int), (0 : Int), (1 : Int)), (1, 2, 3, 0)]
        ([10, 20] : List Int))[i] =
        ((([((0 : Int), (0 : Int), (0 : Int), (1 : Int)), (1, 2, 3, 0)].zip
            ([10, 20] : List Int)).filter (fun q => decide (q.1.2.2.2 = (i : Int)))).map
              (fun q => fst3 q.1),
         (([((0 : Int), (0 : Int), (0 : Int), (1 : Int)), (1, 2, 3, 0)].zip
            ([10, 20] : List Int)).filter (fun q => decide (q.1.2.2.2 = (i : Int)))).map
              Prod.snd)) ∧
    (∀ i (h : i < (split_coords_features [((0 : Int), (0 : Int), (0 : Int), (1 : Int)), (1, 2, 3, 0)]
        ([10, 20] : List Int)).length),
      ((i : Int)) ∉ [((0 : Int), (0 : Int), (0 : Int), (1 : Int)), (1, 2, 3, 0)].map
        (fun c => c.2.2.2) →
      (split_coords_features [((0 : Int), (0 : Int), (0 : Int), (1 : Int)), (1, 2, 3, 0)]
        ([10, 20] : List Int))[i] = ([], [])) :=
  C9_thm [(0, 0, 0, 1), (1, 2, 3, 0)] [10, 20] (by decide) (by decide) (by decide)

/-! Lemmas for `dict_flatten` (C10). -/

lemma pyDict_lookup_gen (K : String) : ∀ (items : List (String × Int))
    (acc : List (String × Int)),
    lookup' K (items.foldl (fun a e => odSet a e.1 e.2) acc) =
      match lastVal items K with
      | some y => some y
      | none => lookup' K acc := by
  intro items
  induction items with
  | nil => intro acc; rfl
  | cons e items' ih =>
    intro acc
    show lookup' K (items'.foldl (fun a e => odSet a e.1 e.2) (odSet acc e.1 e.2)) = _
    rw [ih (odSet acc e.1 e.2)]
    have hodset : lookup' K (odSet acc e.1 e.2) =
        if e.1 = K then some e.2 else lookup' K acc := by
      by_cases hK : e.1 = K
      · rw [if_pos hK, hK]
        exact lookup'_odSet_self acc K e.2
      · rw [if_neg hK]
        exact lookup'_odSet_ne acc e.1 K e.2 (fun hc => hK hc.symm)
    show (match lastVal items' K with
      | some y => some y
      | none => lookup' K (odSet acc e.1 e.2)) =
      (match (match lastVal items' K with
        | some y => some y
        | none => if e.1 = K then some e.2 else none) with
      | some y => some y
      | none => lookup' K acc)
    cases lastVal items' K with
    | some y => rfl
    | none =>
      rw [hodset]
      by_cases hK : e.1 = K
      · rw [if_pos hK, if_pos hK]
      · rw [if_neg hK, if_neg hK]

lemma joinKey_cons (parent sep k : String) (path : List String) :
    joinKey parent sep (k :: path) =
      joinKey (if parent = "" then k else parent ++ sep ++ k) sep path := rfl

lemma flattenItems_eq (sep : String) : ∀ (d : NVal) (parent : String),
    dict_flatten_items d parent sep =
      (allLeaves d).map (fun p => (joinKey parent sep p.1, p.2)) := by
  intro d
  induction d with
  | leaf x => intro parent; rfl
  | nil => intro parent; rfl
  | cons k v rest ihv ihrest =>
    intro parent
    cases v with
    | leaf x =>
      show (if parent = "" then k else parent ++ sep ++ k, x) ::
          dict_flatten_items rest parent sep = _
      rw [ihrest parent]
      show _ = ((if parent = "" then k else parent ++ sep ++ k, x)) ::
        (allLeaves rest).map (fun p => (joinKey parent sep p.1, p.2))
      rfl
    | nil =>
      show dict_flatten_items NVal.nil
          (if parent = "" then k else parent ++ sep ++ k) sep ++
          dict_flatten_items rest parent sep = _
      rw [ihrest parent]
      rfl
    | cons k' v' rest' =>
      show dict_flatten_items (NVal.cons k' v' rest')
          (if parent = "" then k else parent ++ sep ++ k) sep ++
          dict_flatten_items rest parent sep = _
      rw [ihv, ihrest parent]
      have hA : allLeaves (NVal.cons k (NVal.cons k' v' rest') rest) =
          (allLeaves (NVal.cons k' v' rest')).map (fun p => (k :: p.1, p.2)) ++
            allLeaves rest := rfl
      rw [hA, List.map_append, List.map_map]
      rfl

lemma lastVal_mem (K : String) : ∀ (items : List (String × Int)) (x : Int),
    (K, x) ∈ items → ∃ y, lastVal items K = some y := by
  intro items
  induction items with
  | nil =>
    intro x hm
    exact absurd hm (List.not_mem_nil _)
  | cons e rest ih =>
    intro x hm
    show ∃ y, (match lastVal rest K with
      | some y => some y
      | none => if e.1 = K then some e.2 else none) = some y
    cases hl : lastVal rest K with
    | some y => exact ⟨y, rfl⟩
    | none =>
      rcases List.mem_cons.1 hm with heq | hm'
      · refine ⟨e.2, ?_⟩
        rw [if_pos]
        rw [← heq]
      · obtain ⟨y, hy⟩ := ih x hm'
        rw [hy] at hl
        cases hl

/-- C10 counterexample: with an empty top-level key, the joined key drops
the separator (`parent_key` is falsy), so the leaf reachable via the path
`["", "a"]` does not appear under the claimed key `"" + "_" + "a"`. -/
theorem C10_counterexample :
    dict_flatten (NVal.cons "" (NVal.cons "a" (NVal.leaf 1) NVal.nil) NVal.nil) "_" =
      [("a", 1)] ∧
    (["", "a"], 1) ∈ allLeaves (NVal.cons "" (NVal.cons "a" (NVal.leaf 1) NVal.nil) NVal.nil) ∧
    lookup' ("" ++ "_" ++ "a")
      (dict_flatten (NVal.cons "" (NVal.cons "a" (NVal.leaf 1) NVal.nil) NVal.nil) "_") =
      none := by
  refine ⟨by decide, by decide, by decide⟩

/-- C10 (amended): for every nested mapping and separator, looking up any
key in the flattened dict yields the value of the last leaf (in traversal
order) whose joined key — built left to right with an empty accumulated
prefix contributing no separator — equals it; in particular every reachable
leaf's joined key is present, and leaves whose joined keys collide collapse
to one entry with the later value. -/
theorem C10_thm (d : NVal) (sep : String) :
    (∀ K, lookup' K (dict_flatten d sep) = lastVal (leafItems d sep) K) ∧
    (∀ path x, (path, x) ∈ allLeaves d →
      ∃ y, lastVal (leafItems d sep) (joinKey "" sep path) = some y) := by
  have hitems : dict_flatten_items d "" sep = leafItems d sep := flattenItems_eq sep d ""
  constructor
  · intro K
    show lookup' K (pyDict (dict_flatten_items d "" sep)) = _
    rw [hitems]
    show lookup' K ((leafItems d sep).foldl (fun a e => odSet a e.1 e.2) []) = _
    rw [pyDict_lookup_gen K (leafItems d sep) []]
    cases lastVal (leafItems d sep) K with
    | some y => rfl
    | none => rfl
  · intro path x hm
    refine lastVal_mem _ (leafItems d sep) x ?_
    exact List.mem_map_of_mem (fun p => (joinKey "" sep p.1, p.2)) hm

/-- C10 witness: a nested mapping where a literal `a_b` key collides with
the joined key of the path `["a", "b"]`; the later-visited leaf wins. -/
theorem C10_witness :
    lookup' "a_b" (dict_flatten (NVal.cons "a" (NVal.cons "b" (NVal.leaf 1) NVal.nil)
        (NVal.cons "a_b" (NVal.leaf 9) NVal.nil)) "_") =
      lastVal (leafItems (NVal.cons "a" (NVal.cons "b" (NVal.leaf 1) NVal.nil)
        (NVal.cons "a_b" (NVal.leaf 9) NVal.nil)) "_") "a_b" ∧
    ∃ y, lastVal (leafItems (NVal.cons "a" (NVal.cons "b" (NVal.leaf 1) NVal.nil)
        (NVal.cons "a_b" (NVal.leaf 9) NVal.nil)) "_") (joinKey "" "_" ["a", "b"]) = some y :=
  ⟨(C10_thm (NVal.cons "a" (NVal.cons "b" (NVal.leaf 1) NVal.nil)
      (NVal.cons "a_b" (NVal.leaf 9) NVal.nil)) "_").1 "a_b",
   (C10_thm (NVal.cons "a" (NVal.cons "b" (NVal.leaf 1) NVal.nil)
      (NVal.cons "a_b" (NVal.leaf 9) NVal.nil)) "_").2 ["a", "b"] 1 (by decide)⟩
